import Mathlib

/-!
Verification of the Maps3dGenerezion geometry pipeline.

Shallow embedding of the core numeric code of the repository:
`maps3d_app/core/blender_backend.py` (`_compute_dem_metrics`),
`maps3d_app/core/pipeline.py` (`run_python_pipeline`, `GenerateConfig`) and
`maps3d_app/core/mesh_builder.py` (`build_terrain_mesh`,
`sample_height_on_grid`, `build_track_mesh`).

Numbers are modelled as exact rationals.  Grids are lists of rows
(row-major, as the numpy arrays in the source).  The only non-rational
operation of the source, `np.linalg.norm` of a 2-vector, is modelled by a
function parameter `nrm` constrained in the theorems by `0 ≤ nrm a b` and
`(nrm a b)^2 = a^2 + b^2`, which pins it to the Euclidean norm.
-/

namespace Maps3d

/-- `np.clip(v, lo, hi)` -/
def clipQ (v lo hi : ℚ) : ℚ := min (max v lo) hi

/-- Minimum of a list of rationals (0 on the empty list; the source
guarantees nonempty inputs at every use site). -/
def listMin : List ℚ → ℚ
  | [] => 0
  | x :: xs => xs.foldl min x

/-- Maximum of a list of rationals (0 on the empty list). -/
def listMax : List ℚ → ℚ
  | [] => 0
  | x :: xs => xs.foldl max x

/-- Element `g[i][j]` of a row-major grid, with default 0 out of bounds. -/
def cellQ (g : List (List ℚ)) (i j : ℕ) : ℚ := (g.getD i []).getD j 0

/-- Element `m[i][j]` of a boolean mask, defaulting to `true`. -/
def cellB (m : List (List Bool)) (i j : ℕ) : Bool := (m.getD i []).getD j true

/-- Values of the valid cells of one row (`dem[row][mask[row]]`). -/
def rowValid (rv : List ℚ) (rm : List Bool) : List ℚ :=
  ((rv.zip rm).filter (fun p => p.2)).map (fun p => p.1)

/-- All values of valid cells of the grid, row-major
(`dem[valid_mask]` in `_compute_dem_metrics`). -/
def validValues (dem : List (List ℚ)) (mask : List (List Bool)) : List ℚ :=
  ((dem.zip mask).map (fun p => rowValid p.1 p.2)).flatten

/-- `z_min_src = np.min(dem[valid_mask])` (blender_backend.py line 56);
also `min_elev = np.nanmin(dem)` of pipeline.py line 100, since there the
invalid cells hold NaN which `nanmin` ignores. -/
def zMinSrc (dem : List (List ℚ)) (mask : List (List Bool)) : ℚ :=
  listMin (validValues dem mask)

/-- `z_max_src = np.max(dem[valid_mask])` (blender_backend.py line 57). -/
def zMaxSrc (dem : List (List ℚ)) (mask : List (List Bool)) : ℚ :=
  listMax (validValues dem mask)

/-- `dem_filled = np.where(valid_mask, dem, z_min_src)`
(blender_backend.py line 58; pipeline.py line 101 does the same with
`np.where(np.isfinite(dem), dem, min_elev)`). -/
def demFilled (dem : List (List ℚ)) (mask : List (List Bool)) : List (List ℚ) :=
  List.zipWith (fun rv rm => List.zipWith (fun v b => if b then v else zMinSrc dem mask) rv rm)
    dem mask

/-- `z_range_src = max(z_max_src - z_min_src, 0.0)` (blender_backend.py line 59). -/
def zRangeSrc (dem : List (List ℚ)) (mask : List (List Bool)) : ℚ :=
  max (zMaxSrc dem mask - zMinSrc dem mask) 0

/-- The flat-terrain threshold `1e-12` of blender_backend.py line 60. -/
def epsFlat : ℚ := 1 / 10 ^ 12

/-- `normalized01 = np.zeros_like(dem_filled) if z_range_src <= 1e-12 else
np.clip((dem_filled - z_min_src) / z_range_src, 0.0, 1.0)`
(blender_backend.py line 60). -/
def normalized01 (dem : List (List ℚ)) (mask : List (List Bool)) : List (List ℚ) :=
  if zRangeSrc dem mask ≤ epsFlat then
    (demFilled dem mask).map (fun row => row.map (fun _ => 0))
  else
    (demFilled dem mask).map (fun row =>
      row.map (fun v => clipQ ((v - zMinSrc dem mask) / zRangeSrc dem mask) 0 1))

/-- `np.flipud` on a row-major grid. -/
def flipud (g : List (List ℚ)) : List (List ℚ) := g.reverse

/-- `x_coords = win_t.c + (cols_idx + 0.5) * win_t.a` (pipeline.py line 108):
the projected X coordinate of pixel column `i` of the extracted window. -/
def xCoords (c a : ℚ) (cols : ℕ) : List ℚ :=
  (List.range cols).map (fun i : ℕ => c + ((i : ℚ) + 1/2) * a)

/-- `y_coords = win_t.f + (rows_idx + 0.5) * win_t.e` (pipeline.py line 109):
the projected Y coordinate of pixel row `i` of the extracted window. -/
def yCoords (f e : ℚ) (rows : ℕ) : List ℚ :=
  (List.range rows).map (fun i : ℕ => f + ((i : ℚ) + 1/2) * e)

/-- `dx = max(abs(x_max - x_min), 1e-6)` (pipeline.py line 113), the raster
span along X with its degeneracy floor. -/
def spanFloor (coords : List ℚ) : ℚ :=
  max |listMax coords - listMin coords| (1 / 10 ^ 6)

/-- The `GenerateConfig` dataclass of pipeline.py lines 15-57, with floats
as rationals.  Note it has no track ridge width field of any kind. -/
structure GenerateConfig where
  model_width_mm : ℚ := 150
  model_height_mm : ℚ := 150
  base_thickness_mm : ℚ := 5
  vertical_scale : ℚ := 1
  track_height_mm : ℚ := 2
  bbox_margin_ratio : ℚ := 1/10
  grid_res : ℤ := 400
  separate_frame : Bool := true
  frame_text_enabled : Bool := true
  frame_wall_mm : ℚ := 10
  frame_height_mm : ℚ := 8
  lip_depth_mm : ℚ := 3
  clearance_mm : ℚ := 3/10
  text_mode : String := "inciso"
  text_depth_mm : ℚ := 6/5
  title_text : String := ""
  subtitle_text : String := ""
  label_n : String := "N"
  label_s : String := "S"
  label_e : String := "E"
  label_w : String := "O"
  flush_mode : String := "recessed"
  recess_mm : ℚ := 3/2
  lead_in_mm : ℚ := 1
  finger_notch_radius_mm : ℚ := 7
  rim_mm : ℚ := 3
  printer_profile : String := "custom"
  test_mode : Bool := false
  test_size_mm : ℚ := 40
  ams_enabled : Bool := true
  track_inlay_enabled : Bool := true
  groove_width_mm : ℚ := 13/5
  groove_depth_mm : ℚ := 8/5
  groove_chamfer_mm : ℚ := 2/5
  track_clearance_mm : ℚ := 1/5
  track_relief_mm : ℚ := 3/5
  track_top_radius_mm : ℚ := 4/5

/-- The window geometry seen by the pipeline after the raster read: the
affine window transform coefficients (`win_t.c`, `win_t.a`, `win_t.f`,
`win_t.e` of pipeline.py lines 103-109). -/
structure WinT where
  c : ℚ
  a : ℚ
  f : ℚ
  e : ℚ

/-- The flip test of pipeline.py line 119 / blender_backend.py line 71:
`y_coords[0] > y_coords[-1]`. -/
def flipCond (w : WinT) (rows : ℕ) : Prop :=
  (yCoords w.f w.e rows).headD 0 > (yCoords w.f w.e rows).getLastD 0

instance (w : WinT) (rows : ℕ) : Decidable (flipCond w rows) := by
  unfold flipCond; infer_instance

/-- The height grid the pipeline feeds to the mesh builders, after nodata
fill (line 101) and the conditional vertical mirror (lines 119-120):
`if y_coords[0] > y_coords[-1]: dem = np.flipud(dem)`. -/
def orientedFilled (dem : List (List ℚ)) (mask : List (List Bool)) (w : WinT) : List (List ℚ) :=
  if flipCond w dem.length then flipud (demFilled dem mask) else demFilled dem mask

/-- The normalized field produced by `_compute_dem_metrics`, after its own
conditional vertical mirror (blender_backend.py lines 71-72). -/
def orientedNormalized (dem : List (List ℚ)) (mask : List (List Bool)) (w : WinT) :
    List (List ℚ) :=
  if flipCond w dem.length then flipud (normalized01 dem mask) else normalized01 dem mask

/-- The projected Y coordinate of output row `i` after the conditional
flip: flipping reverses row order, so output row `i` came from input row
`rows - 1 - i`. -/
def rowProjY (w : WinT) (rows i : ℕ) : ℚ :=
  if flipCond w rows then (yCoords w.f w.e rows).getD (rows - 1 - i) 0
  else (yCoords w.f w.e rows).getD i 0

/-- `horiz_scale_mm_per_unit = min(model_width_mm / dx, model_height_mm / dy)`
(pipeline.py line 122, blender_backend.py line 78), with
`dx`/`dy` the floored raster spans of the window's pixel-center coordinates. -/
def horizScale (cfg : GenerateConfig) (w : WinT) (rows cols : ℕ) : ℚ :=
  min (cfg.model_width_mm / spanFloor (xCoords w.c w.a cols))
      (cfg.model_height_mm / spanFloor (yCoords w.f w.e rows))

/-- `z_mm = (dem - min_elev) * horiz_scale_mm_per_unit * config.vertical_scale`
(pipeline.py line 123), applied to the filled, orientation-corrected grid. -/
def pipelineZ (dem : List (List ℚ)) (mask : List (List Bool)) (w : WinT)
    (cfg : GenerateConfig) : List (List ℚ) :=
  (orientedFilled dem mask w).map (fun row =>
    row.map (fun v =>
      (v - zMinSrc dem mask) * horizScale cfg w dem.length ((dem.headD []).length)
        * cfg.vertical_scale))

/-- `z_range_mm = (z_max_src - z_min_src) * horiz_scale_mm_per_unit`
(blender_backend.py line 79). -/
def zRangeMm (dem : List (List ℚ)) (mask : List (List Bool)) (w : WinT)
    (cfg : GenerateConfig) : ℚ :=
  (zMaxSrc dem mask - zMinSrc dem mask) * horizScale cfg w dem.length ((dem.headD []).length)

/-- A triangle mesh: vertex coordinates in mm and faces as triples of
indices into the vertex list (trimesh.Trimesh with `process=False`). -/
structure Mesh where
  vertices : List (ℚ × ℚ × ℚ)
  faces : List (ℕ × ℕ × ℕ)
  deriving DecidableEq

/-- `_grid_index(row, col, cols) = row * cols + col` (mesh_builder.py line 7). -/
def grid_index (row col cols : ℕ) : ℕ := row * cols + col

/-- The four top/bottom faces that `build_terrain_mesh` appends for the cell
block at `(r, c)` (mesh_builder.py lines 27-42); bottom indices are the top
indices shifted by `rows * cols`. -/
def quadFaces (rows cols r c : ℕ) : List (ℕ × ℕ × ℕ) :=
  [(grid_index r c cols, grid_index (r+1) c cols, grid_index r (c+1) cols),
   (grid_index r (c+1) cols, grid_index (r+1) c cols, grid_index (r+1) (c+1) cols),
   (grid_index r c cols + rows*cols, grid_index r (c+1) cols + rows*cols,
      grid_index (r+1) c cols + rows*cols),
   (grid_index r (c+1) cols + rows*cols, grid_index (r+1) (c+1) cols + rows*cols,
      grid_index (r+1) c cols + rows*cols)]

/-- `add_wall(top_a, top_b)` (mesh_builder.py lines 44-48). -/
def wallFaces (rows cols atop btop : ℕ) : List (ℕ × ℕ × ℕ) :=
  [(atop, btop, atop + rows*cols), (btop, btop + rows*cols, atop + rows*cols)]

/-- The complete face list of `build_terrain_mesh` for a `rows × cols` height
grid: top/bottom quads (lines 27-42), then the four perimeter walls
(lines 50-56). -/
def terrainFaces (rows cols : ℕ) : List (ℕ × ℕ × ℕ) :=
  ((List.range (rows-1)).flatMap fun r =>
    (List.range (cols-1)).flatMap fun c => quadFaces rows cols r c)
  ++ ((List.range (cols-1)).flatMap fun c =>
        wallFaces rows cols (grid_index 0 c cols) (grid_index 0 (c+1) cols)
        ++ wallFaces rows cols (grid_index (rows-1) (c+1) cols) (grid_index (rows-1) c cols))
  ++ ((List.range (rows-1)).flatMap fun r =>
        wallFaces rows cols (grid_index (r+1) 0 cols) (grid_index r 0 cols)
        ++ wallFaces rows cols (grid_index r (cols-1) cols) (grid_index (r+1) (cols-1) cols))

/-- `build_terrain_mesh` (mesh_builder.py lines 11-59): top vertices from
`meshgrid` in row-major order, bottom vertices at `-base_thickness_mm`, and
the face list above.  The function performs no input validation of any
kind: it never raises on degenerate grids. -/
def build_terrain_mesh (x_mm y_mm : List ℚ) (z_mm : List (List ℚ))
    (base_thickness_mm : ℚ) : Mesh :=
  let rows := z_mm.length
  let cols := (z_mm.headD []).length
  let top := (List.range rows).flatMap (fun r => (List.range cols).map (fun c =>
      (x_mm.getD c 0, y_mm.getD r 0, cellQ z_mm r c)))
  let bottom := (List.range rows).flatMap (fun r => (List.range cols).map (fun c =>
      (x_mm.getD c 0, y_mm.getD r 0, -base_thickness_mm)))
  ⟨top ++ bottom, terrainFaces rows cols⟩

/-- `np.searchsorted(xs, v, side="right")` for a sorted `xs`: the number of
elements `≤ v`, i.e. the index of the first element strictly above `v`. -/
def searchsortedRight (xs : List ℚ) (v : ℚ) : ℕ :=
  xs.countP (fun t => decide (t ≤ v))

/-- `sample_height_on_grid` (mesh_builder.py lines 62-84): clamp the query
to the grid extent, locate the enclosing cell, bilinearly interpolate the
four corner heights.  `np.clip(ix, 0, len - 2)` is `min (ss - 1) (len - 2)`
here because truncated ℕ subtraction already sends `ss = 0` to `0`. -/
def sample_height_on_grid (x_mm y_mm : List ℚ) (z_mm : List (List ℚ))
    (px py : ℚ) : ℚ :=
  let x := clipQ px (x_mm.headD 0) (x_mm.getLastD 0)
  let y := clipQ py (y_mm.headD 0) (y_mm.getLastD 0)
  let ix := min (searchsortedRight x_mm x - 1) (x_mm.length - 2)
  let iy := min (searchsortedRight y_mm y - 1) (y_mm.length - 2)
  let x0 := x_mm.getD ix 0
  let x1 := x_mm.getD (ix+1) 0
  let y0 := y_mm.getD iy 0
  let y1 := y_mm.getD (iy+1) 0
  let tx := if x1 = x0 then 0 else (x - x0) / (x1 - x0)
  let ty := if y1 = y0 then 0 else (y - y0) / (y1 - y0)
  let z00 := cellQ z_mm iy ix
  let z10 := cellQ z_mm iy (ix+1)
  let z01 := cellQ z_mm (iy+1) ix
  let z11 := cellQ z_mm (iy+1) (ix+1)
  let z0 := z00 * (1 - tx) + z10 * tx
  let z1 := z01 * (1 - tx) + z11 * tx
  z0 * (1 - ty) + z1 * ty

/-- The twelve triangles of one track segment prism, as local vertex
indices (mesh_builder.py lines 127-134). -/
def trackLocalFaces : List (ℕ × ℕ × ℕ) :=
  [(0,2,1), (1,2,3), (4,5,6), (5,7,6), (0,1,4), (1,5,4),
   (2,6,3), (3,6,7), (1,3,5), (3,7,5), (0,4,2), (2,4,6)]

/-- The default of the `track_width_mm` parameter of `build_track_mesh`
(mesh_builder.py line 93): `1.2`. -/
def track_width_default : ℚ := 6/5

/-- One loop iteration of `build_track_mesh` (mesh_builder.py lines 98-125):
the eight prism vertices for the segment `p0 → p1`, or `[]` when the
segment is skipped as degenerate (`length < 1e-6`).  `nrm` models
`np.linalg.norm` of the 2-vector `p1 - p0`. -/
def segPrism (nrm : ℚ → ℚ → ℚ) (x_mm y_mm : List ℚ) (z_mm : List (List ℚ))
    (track_height_mm track_width_mm : ℚ) (p0 p1 : ℚ × ℚ) : List (ℚ × ℚ × ℚ) :=
  let v1 := p1.1 - p0.1
  let v2 := p1.2 - p0.2
  let len := nrm v1 v2
  if len < 1 / 10 ^ 6 then []
  else
    let off1 := -(v2 / len) * (track_width_mm / 2)
    let off2 := (v1 / len) * (track_width_mm / 2)
    let z0 := sample_height_on_grid x_mm y_mm z_mm p0.1 p0.2 + 1/20
    let z1 := sample_height_on_grid x_mm y_mm z_mm p1.1 p1.2 + 1/20
    [(p0.1 - off1, p0.2 - off2, z0), (p0.1 + off1, p0.2 + off2, z0),
     (p1.1 - off1, p1.2 - off2, z1), (p1.1 + off1, p1.2 + off2, z1),
     (p0.1 - off1, p0.2 - off2, z0 + track_height_mm),
     (p0.1 + off1, p0.2 + off2, z0 + track_height_mm),
     (p1.1 - off1, p1.2 - off2, z1 + track_height_mm),
     (p1.1 + off1, p1.2 + off2, z1 + track_height_mm)]

/-- The accumulation loop of `build_track_mesh`: extend the vertex list by
each non-degenerate segment's prism and append its twelve faces shifted by
`start = len(vertices)` (mesh_builder.py lines 123-136). -/
def trackAccum (nrm : ℚ → ℚ → ℚ) (x_mm y_mm : List ℚ) (z_mm : List (List ℚ))
    (track_height_mm track_width_mm : ℚ) :
    Mesh → List ((ℚ × ℚ) × (ℚ × ℚ)) → Mesh
  | m, [] => m
  | m, (p0, p1) :: rest =>
      let pv := segPrism nrm x_mm y_mm z_mm track_height_mm track_width_mm p0 p1
      if pv.isEmpty then
        trackAccum nrm x_mm y_mm z_mm track_height_mm track_width_mm m rest
      else
        trackAccum nrm x_mm y_mm z_mm track_height_mm track_width_mm
          ⟨m.vertices ++ pv,
           m.faces ++ trackLocalFaces.map (fun f =>
             (m.vertices.length + f.1, m.vertices.length + f.2.1,
              m.vertices.length + f.2.2))⟩ rest

/-- `build_track_mesh` (mesh_builder.py lines 87-141): one prism per
non-degenerate consecutive-point segment; the empty mesh when no segment
produced vertices. -/
def build_track_mesh (nrm : ℚ → ℚ → ℚ) (track_xy_mm : List (ℚ × ℚ))
    (x_mm y_mm : List ℚ) (z_mm : List (List ℚ))
    (track_height_mm track_width_mm : ℚ) : Mesh :=
  trackAccum nrm x_mm y_mm z_mm track_height_mm track_width_mm ⟨[], []⟩
    (track_xy_mm.zip track_xy_mm.tail)

/-- The call `build_track_mesh(track_xy_mm=..., x_mm=..., y_mm=..., z_mm=...,
track_height_mm=config.track_height_mm)` of `run_python_pipeline`
(pipeline.py lines 130-136): no width argument is passed, so Python uses
the default parameter value 1.2 of mesh_builder.py line 93. -/
def pipelineTrackMesh (nrm : ℚ → ℚ → ℚ) (cfg : GenerateConfig)
    (track_xy_mm : List (ℚ × ℚ)) (x_mm y_mm : List ℚ)
    (z_mm : List (List ℚ)) : Mesh :=
  build_track_mesh nrm track_xy_mm x_mm y_mm z_mm cfg.track_height_mm
    track_width_default

/-- The clamped enclosing-cell index along one axis
(`np.clip(np.searchsorted(xs, clip(p), side="right") - 1, 0, len(xs) - 2)`). -/
def sampleIx (xs : List ℚ) (p : ℚ) : ℕ :=
  min (searchsortedRight xs (clipQ p (xs.headD 0) (xs.getLastD 0)) - 1) (xs.length - 2)

/-- The interpolation fraction along one axis
(`tx = 0.0 if x1 == x0 else (x - x0) / (x1 - x0)`). -/
def fracOf (xs : List ℚ) (p : ℚ) : ℚ :=
  let x := clipQ p (xs.headD 0) (xs.getLastD 0)
  let i := sampleIx xs p
  if xs.getD (i+1) 0 = xs.getD i 0 then 0
  else (x - xs.getD i 0) / (xs.getD (i+1) 0 - xs.getD i 0)

/-! ### Abstract vertex view of the terrain faces

`build_terrain_mesh` flattens the grid: a top vertex at grid position
`(r, c)` gets index `r*cols + c` and the bottom copy gets
`rows*cols + r*cols + c`.  To reason about edge sharing we mirror the face
list over an inductive vertex type carrying the grid position, together
with the encoding, and prove the two lists agree. -/

/-- A terrain vertex: `tv r c` on the top surface, `bv r c` on the bottom. -/
inductive AV where
  | tv (r c : ℕ)
  | bv (r c : ℕ)
  deriving DecidableEq, Repr

/-- The flat-index encoding used by `build_terrain_mesh`. -/
def encAV (rows cols : ℕ) : AV → ℕ
  | .tv r c => grid_index r c cols
  | .bv r c => grid_index r c cols + rows * cols

/-- `quadFaces` over abstract vertices. -/
def quadFacesA (r c : ℕ) : List (AV × AV × AV) :=
  [(.tv r c, .tv (r+1) c, .tv r (c+1)),
   (.tv r (c+1), .tv (r+1) c, .tv (r+1) (c+1)),
   (.bv r c, .bv r (c+1), .bv (r+1) c),
   (.bv r (c+1), .bv (r+1) (c+1), .bv (r+1) c)]

/-- `add_wall` over abstract vertices; `a` and `b` are the grid positions
of the two top vertices of the wall quad. -/
def wallFacesA (a b : ℕ × ℕ) : List (AV × AV × AV) :=
  [(.tv a.1 a.2, .tv b.1 b.2, .bv a.1 a.2),
   (.tv b.1 b.2, .bv b.1 b.2, .bv a.1 a.2)]

/-- `terrainFaces` over abstract vertices, same construction order. -/
def terrainFacesA (rows cols : ℕ) : List (AV × AV × AV) :=
  ((List.range (rows-1)).flatMap fun r =>
    (List.range (cols-1)).flatMap fun c => quadFacesA r c)
  ++ ((List.range (cols-1)).flatMap fun c =>
        wallFacesA (0, c) (0, c+1) ++ wallFacesA (rows-1, c+1) (rows-1, c))
  ++ ((List.range (rows-1)).flatMap fun r =>
        wallFacesA (r+1, 0) (r, 0) ++ wallFacesA (r, cols-1) (r+1, cols-1))

/-- The three directed sides of a triangle. -/
def sidesOf {α : Type} (f : α × α × α) : List (α × α) :=
  [(f.1, f.2.1), (f.2.1, f.2.2), (f.2.2, f.1)]

/-- The triangle `f` has the undirected edge `e` (in either orientation). -/
def hasEdge {α : Type} [DecidableEq α] (f : α × α × α) (e : α × α) : Bool :=
  decide (e ∈ sidesOf f ∨ (e.2, e.1) ∈ sidesOf f)

/-- Number of faces of `fs` sharing the undirected edge `e`. -/
def edgeFaceCount {α : Type} [DecidableEq α] (fs : List (α × α × α)) (e : α × α) : ℕ :=
  (fs.filter (fun f => hasEdge f e)).length

/-- Vertex positions of an abstract vertex are inside the grid. -/
def AVIn (rows cols : ℕ) : AV → Prop
  | .tv r c => r < rows ∧ c < cols
  | .bv r c => r < rows ∧ c < cols

/-- Encoding of an abstract face into flat vertex indices. -/
def encF (rows cols : ℕ) (f : AV × AV × AV) : ℕ × ℕ × ℕ :=
  (encAV rows cols f.1, encAV rows cols f.2.1, encAV rows cols f.2.2)

/-- Encoding of an abstract edge into flat vertex indices. -/
def encE (rows cols : ℕ) (e : AV × AV) : ℕ × ℕ :=
  (encAV rows cols e.1, encAV rows cols e.2)

/-! ## Infrastructure lemmas -/

theorem getD_map_lt {α β : Type} (f : α → β) (l : List α) (i : ℕ) (d : β) (d' : α)
    (h : i < l.length) : (l.map f).getD i d = f (l.getD i d') := by
  induction l generalizing i with
  | nil => simp at h
  | cons x xs ih =>
      cases i with
      | zero => rfl
      | succ n => simpa using ih n (by simpa using h)

theorem getD_zipWith_lt {α β γ : Type} (f : α → β → γ) (a : List α) (b : List β)
    (i : ℕ) (d : γ) (da : α) (db : β) (h1 : i < a.length) (h2 : i < b.length) :
    (List.zipWith f a b).getD i d = f (a.getD i da) (b.getD i db) := by
  induction a generalizing b i with
  | nil => simp at h1
  | cons x xs ih =>
      cases b with
      | nil => simp at h2
      | cons y ys =>
          cases i with
          | zero => rfl
          | succ n => simpa using ih ys n (by simpa using h1) (by simpa using h2)

theorem demFilled_getD (dem : List (List ℚ)) (mask : List (List Bool))
    (hlen : mask.length = dem.length)
    (hrow : ∀ i, i < dem.length → (mask.getD i []).length = (dem.getD i []).length)
    (i j : ℕ) (hi : i < dem.length) (hj : j < (dem.getD i []).length) :
    cellQ (demFilled dem mask) i j =
      (if cellB mask i j then cellQ dem i j else zMinSrc dem mask) := by
  unfold cellQ demFilled
  rw [getD_zipWith_lt _ dem mask i [] [] [] hi (by rw [hlen]; exact hi)]
  rw [getD_zipWith_lt _ _ _ j 0 0 true hj (by rw [hrow i hi]; exact hj)]
  rfl

theorem demFilled_length (dem : List (List ℚ)) (mask : List (List Bool))
    (hlen : mask.length = dem.length) : (demFilled dem mask).length = dem.length := by
  simp [demFilled, hlen]

theorem demFilled_row_length (dem : List (List ℚ)) (mask : List (List Bool))
    (hlen : mask.length = dem.length)
    (hrow : ∀ i, i < dem.length → (mask.getD i []).length = (dem.getD i []).length)
    (i : ℕ) (hi : i < dem.length) :
    ((demFilled dem mask).getD i []).length = (dem.getD i []).length := by
  unfold demFilled
  rw [getD_zipWith_lt _ dem mask i [] [] [] hi (by rw [hlen]; exact hi)]
  simp only [List.length_zipWith, hrow i hi, min_self]

theorem normalized01_cell_scaled (dem : List (List ℚ)) (mask : List (List Bool))
    (hlen : mask.length = dem.length)
    (hrow : ∀ i, i < dem.length → (mask.getD i []).length = (dem.getD i []).length)
    (i j : ℕ) (hi : i < dem.length) (hj : j < (dem.getD i []).length)
    (hgt : epsFlat < zRangeSrc dem mask) :
    cellQ (normalized01 dem mask) i j =
      clipQ ((cellQ (demFilled dem mask) i j - zMinSrc dem mask) / zRangeSrc dem mask) 0 1 := by
  have hflen := demFilled_length dem mask hlen
  have hfrow := demFilled_row_length dem mask hlen hrow i hi
  unfold normalized01
  rw [if_neg (not_le.mpr hgt)]
  unfold cellQ
  rw [getD_map_lt _ (demFilled dem mask) i [] [] (by rw [hflen]; exact hi)]
  rw [getD_map_lt _ _ j 0 0 (by rw [hfrow]; exact hj)]

theorem normalized01_cell_flat (dem : List (List ℚ)) (mask : List (List Bool))
    (hlen : mask.length = dem.length)
    (hrow : ∀ i, i < dem.length → (mask.getD i []).length = (dem.getD i []).length)
    (i j : ℕ) (hi : i < dem.length) (hj : j < (dem.getD i []).length)
    (hle : zRangeSrc dem mask ≤ epsFlat) :
    cellQ (normalized01 dem mask) i j = 0 := by
  have hflen := demFilled_length dem mask hlen
  have hfrow := demFilled_row_length dem mask hlen hrow i hi
  unfold normalized01
  rw [if_pos hle]
  unfold cellQ
  rw [getD_map_lt _ (demFilled dem mask) i [] [] (by rw [hflen]; exact hi)]
  rw [getD_map_lt _ _ j 0 0 (by rw [hfrow]; exact hj)]

theorem normalized01_length (dem : List (List ℚ)) (mask : List (List Bool))
    (hlen : mask.length = dem.length) :
    (normalized01 dem mask).length = dem.length := by
  unfold normalized01
  split <;> simp [demFilled_length dem mask hlen]

theorem normalized01_row_length (dem : List (List ℚ)) (mask : List (List Bool))
    (hlen : mask.length = dem.length)
    (hrow : ∀ i, i < dem.length → (mask.getD i []).length = (dem.getD i []).length)
    (i : ℕ) (hi : i < dem.length) :
    ((normalized01 dem mask).getD i []).length = (dem.getD i []).length := by
  have hflen := demFilled_length dem mask hlen
  have hfrow := demFilled_row_length dem mask hlen hrow i hi
  unfold normalized01
  split <;>
    · rw [getD_map_lt _ (demFilled dem mask) i [] [] (by rw [hflen]; exact hi)]
      rw [List.length_map]
      exact hfrow

theorem skip_trackAccum (nrm : ℚ → ℚ → ℚ) (x_mm y_mm : List ℚ)
    (z_mm : List (List ℚ)) (th tw : ℚ) (m : Mesh)
    (segs : List ((ℚ × ℚ) × (ℚ × ℚ)))
    (h : ∀ p ∈ segs, nrm (p.2.1 - p.1.1) (p.2.2 - p.1.2) < 1 / 10 ^ 6) :
    trackAccum nrm x_mm y_mm z_mm th tw m segs = m := by
  induction segs with
  | nil => rfl
  | cons s rest ih =>
      obtain ⟨p0, p1⟩ := s
      have hs : segPrism nrm x_mm y_mm z_mm th tw p0 p1 = [] := by
        unfold segPrism
        rw [if_pos]
        exact h (p0, p1) (List.mem_cons_self _ _)
      have step : trackAccum nrm x_mm y_mm z_mm th tw m ((p0, p1) :: rest)
          = trackAccum nrm x_mm y_mm z_mm th tw m rest := by
        simp only [trackAccum, hs, List.isEmpty_nil, if_true]
      rw [step]
      exact ih (fun p hp => h p (List.mem_cons_of_mem _ hp))

theorem grid_ext (g h : List (List ℚ)) (hl : g.length = h.length)
    (hrl : ∀ i, i < g.length → (g.getD i []).length = (h.getD i []).length)
    (hc : ∀ i j, i < g.length → j < (g.getD i []).length → cellQ g i j = cellQ h i j) :
    g = h := by
  apply List.ext_getElem hl
  intro i h1 h2
  have hgd : g.getD i [] = g[i] := List.getD_eq_getElem g [] h1
  have hhd : h.getD i [] = h[i] := List.getD_eq_getElem h [] h2
  have hrl' := hrl i h1
  rw [hgd, hhd] at hrl'
  apply List.ext_getElem hrl'
  intro j j1 j2
  have := hc i j h1 (by rw [hgd]; exact j1)
  unfold cellQ at this
  rw [hgd, hhd] at this
  rw [List.getD_eq_getElem _ 0 j1, List.getD_eq_getElem _ 0 j2] at this
  exact this

theorem yCoords_length (f e : ℚ) (rows : ℕ) : (yCoords f e rows).length = rows := by
  unfold yCoords
  rw [List.length_map, List.length_range]

theorem yCoords_getD (f e : ℚ) (rows k : ℕ) (hk : k < rows) :
    (yCoords f e rows).getD k 0 = f + ((k : ℚ) + 1/2) * e := by
  unfold yCoords
  rw [List.getD_eq_getElem _ _ (by rw [List.length_map, List.length_range]; exact hk)]
  simp

theorem headD_eq_getD {α : Type} (l : List α) (d : α) : l.headD d = l.getD 0 d := by
  cases l <;> rfl

theorem getLastD_eq_getD {α : Type} (l : List α) (d : α) :
    l.getLastD d = l.getD (l.length - 1) d := by
  cases l with
  | nil => rfl
  | cons x xs =>
      rw [List.getLastD_eq_getLast?, List.getLast?_eq_getElem?,
        List.getD_eq_getElem?_getD]

theorem flipCond_iff (w : WinT) (rows : ℕ) (h : 1 ≤ rows) :
    flipCond w rows ↔ ((rows : ℚ) - 1) * w.e < 0 := by
  unfold flipCond
  rw [headD_eq_getD, getLastD_eq_getD, yCoords_length]
  rw [yCoords_getD _ _ _ 0 (by omega), yCoords_getD _ _ _ (rows - 1) (by omega)]
  have hc : ((rows - 1 : ℕ) : ℚ) = (rows : ℚ) - 1 := by
    push_cast [Nat.cast_sub h]
    ring
  rw [hc]
  constructor <;> intro hx <;> nlinarith

theorem getD_reverse {α : Type} (l : List α) (i : ℕ) (h : i < l.length) (d : α) :
    l.reverse.getD i d = l.getD (l.length - 1 - i) d := by
  rw [List.getD_eq_getElem _ _ (by simpa using h), List.getElem_reverse,
    List.getD_eq_getElem _ _ (by omega)]

theorem foldl_min_le_init (xs : List ℚ) (a : ℚ) : xs.foldl min a ≤ a := by
  induction xs generalizing a with
  | nil => exact le_refl a
  | cons y ys ih => exact le_trans (ih (min a y)) (min_le_left a y)

theorem foldl_min_le_mem (xs : List ℚ) (a x : ℚ) (hx : x ∈ xs) : xs.foldl min a ≤ x := by
  induction xs generalizing a with
  | nil => simp at hx
  | cons y ys ih =>
      rcases List.mem_cons.mp hx with rfl | hx'
      · exact le_trans (foldl_min_le_init ys (min a x)) (min_le_right a x)
      · exact ih (min a y) hx'

theorem listMin_le_of_mem (l : List ℚ) (x : ℚ) (hx : x ∈ l) : listMin l ≤ x := by
  cases l with
  | nil => simp at hx
  | cons y ys =>
      rcases List.mem_cons.mp hx with rfl | hx'
      · exact foldl_min_le_init ys x
      · exact foldl_min_le_mem ys y x hx'

theorem init_le_foldl_max (xs : List ℚ) (a : ℚ) : a ≤ xs.foldl max a := by
  induction xs generalizing a with
  | nil => exact le_refl a
  | cons y ys ih => exact le_trans (le_max_left a y) (ih (max a y))

theorem mem_le_foldl_max (xs : List ℚ) (a x : ℚ) (hx : x ∈ xs) : x ≤ xs.foldl max a := by
  induction xs generalizing a with
  | nil => simp at hx
  | cons y ys ih =>
      rcases List.mem_cons.mp hx with rfl | hx'
      · exact le_trans (le_max_right a x) (init_le_foldl_max ys (max a x))
      · exact ih (max a y) hx'

theorem le_listMax_of_mem (l : List ℚ) (x : ℚ) (hx : x ∈ l) : x ≤ listMax l := by
  cases l with
  | nil => simp at hx
  | cons y ys =>
      rcases List.mem_cons.mp hx with rfl | hx'
      · exact init_le_foldl_max ys x
      · exact mem_le_foldl_max ys y x hx'

theorem listMin_le_listMax (l : List ℚ) (h : l ≠ []) : listMin l ≤ listMax l := by
  cases l with
  | nil => exact absurd rfl h
  | cons y ys =>
      exact le_trans (listMin_le_of_mem _ y (List.mem_cons_self y ys))
        (le_listMax_of_mem _ y (List.mem_cons_self y ys))

theorem mem_validValues (dem : List (List ℚ)) (mask : List (List Bool))
    (hlen : mask.length = dem.length)
    (hrow : ∀ i, i < dem.length → (mask.getD i []).length = (dem.getD i []).length)
    (i j : ℕ) (hi : i < dem.length) (hj : j < (dem.getD i []).length)
    (hb : cellB mask i j = true) :
    cellQ dem i j ∈ validValues dem mask := by
  unfold validValues
  rw [List.mem_flatten]
  refine ⟨rowValid (dem.getD i []) (mask.getD i []), ?_, ?_⟩
  · rw [List.mem_map]
    refine ⟨(dem.getD i [], mask.getD i []), ?_, rfl⟩
    have hiz : i < (dem.zip mask).length := by
      rw [List.length_zip, hlen, min_self]; exact hi
    have : (dem.zip mask)[i] = (dem[i], mask[i]) := List.getElem_zip
    rw [List.getD_eq_getElem dem [] hi, List.getD_eq_getElem mask [] (by omega)]
    rw [← this]
    exact List.getElem_mem hiz
  · unfold rowValid
    rw [List.mem_map]
    refine ⟨(cellQ dem i j, true), ?_, rfl⟩
    rw [List.mem_filter]
    constructor
    · have hjm : j < (mask.getD i []).length := by rw [hrow i hi]; exact hj
      have hjz : j < ((dem.getD i []).zip (mask.getD i [])).length := by
        rw [List.length_zip]; omega
      have : ((dem.getD i []).zip (mask.getD i []))[j] =
          ((dem.getD i [])[j], (mask.getD i [])[j]) := List.getElem_zip
      have hc : cellQ dem i j = (dem.getD i [])[j] := by
        unfold cellQ
        rw [List.getD_eq_getElem _ 0 hj]
      have hbt : (mask.getD i [])[j] = true := by
        unfold cellB at hb
        rw [List.getD_eq_getElem _ true hjm] at hb
        exact hb
      rw [hc, ← hbt, ← this]
      exact List.getElem_mem hjz
    · rfl

theorem filled_between (dem : List (List ℚ)) (mask : List (List Bool))
    (hlen : mask.length = dem.length)
    (hrow : ∀ i, i < dem.length → (mask.getD i []).length = (dem.getD i []).length)
    (hvalid : validValues dem mask ≠ [])
    (i j : ℕ) (hi : i < dem.length) (hj : j < (dem.getD i []).length) :
    zMinSrc dem mask ≤ cellQ (demFilled dem mask) i j ∧
      cellQ (demFilled dem mask) i j ≤ zMaxSrc dem mask := by
  have hfd := demFilled_getD dem mask hlen hrow i j hi hj
  cases hb : cellB mask i j with
  | false =>
      rw [hb] at hfd
      simp at hfd
      rw [hfd]
      exact ⟨le_refl _, listMin_le_listMax _ hvalid⟩
  | true =>
      rw [hb] at hfd
      simp at hfd
      rw [hfd]
      have hm := mem_validValues dem mask hlen hrow i j hi hj hb
      exact ⟨listMin_le_of_mem _ _ hm, le_listMax_of_mem _ _ hm⟩

theorem normalized_times_range (dem : List (List ℚ)) (mask : List (List Bool))
    (hlen : mask.length = dem.length)
    (hrow : ∀ i, i < dem.length → (mask.getD i []).length = (dem.getD i []).length)
    (hvalid : validValues dem mask ≠ [])
    (i j : ℕ) (hi : i < dem.length) (hj : j < (dem.getD i []).length)
    (hc : epsFlat < zRangeSrc dem mask ∨ zRangeSrc dem mask = 0) :
    cellQ (normalized01 dem mask) i j * zRangeSrc dem mask =
      cellQ (demFilled dem mask) i j - zMinSrc dem mask := by
  obtain ⟨hlo, hhi⟩ := filled_between dem mask hlen hrow hvalid i j hi hj
  rcases hc with hgt | hz
  · have hzr : zRangeSrc dem mask = zMaxSrc dem mask - zMinSrc dem mask := by
      unfold zRangeSrc
      have : (0:ℚ) < zRangeSrc dem mask := lt_trans (by norm_num [epsFlat]) hgt
      unfold zRangeSrc at this
      rcases max_cases (zMaxSrc dem mask - zMinSrc dem mask) (0:ℚ) with ⟨h1, _⟩ | ⟨h1, h2⟩
      · rw [h1]
      · rw [h1] at this; exact absurd this (lt_irrefl 0)
    have hpos : (0:ℚ) < zRangeSrc dem mask := lt_trans (by norm_num [epsFlat]) hgt
    rw [normalized01_cell_scaled dem mask hlen hrow i j hi hj hgt]
    have harg : (0:ℚ) ≤ (cellQ (demFilled dem mask) i j - zMinSrc dem mask) / zRangeSrc dem mask := by
      apply div_nonneg (by linarith) (le_of_lt hpos)
    have harg1 : (cellQ (demFilled dem mask) i j - zMinSrc dem mask) / zRangeSrc dem mask ≤ 1 := by
      rw [div_le_one hpos, hzr]
      linarith
    unfold clipQ
    rw [max_eq_left harg, min_eq_left harg1]
    field_simp
  · have hflat : zRangeSrc dem mask ≤ epsFlat := by
      rw [hz]; norm_num [epsFlat]
    rw [normalized01_cell_flat dem mask hlen hrow i j hi hj hflat, hz]
    have hle : zMaxSrc dem mask - zMinSrc dem mask ≤ 0 := by
      unfold zRangeSrc at hz
      by_contra hpos
      push_neg at hpos
      rw [max_eq_left (le_of_lt hpos)] at hz
      linarith
    have : cellQ (demFilled dem mask) i j = zMinSrc dem mask := le_antisymm (by linarith) hlo
    rw [this]
    ring



theorem orientedFilled_length (dem : List (List ℚ)) (mask : List (List Bool)) (w : WinT)
    (hlen : mask.length = dem.length) :
    (orientedFilled dem mask w).length = dem.length := by
  unfold orientedFilled
  split
  · unfold flipud; rw [List.length_reverse, demFilled_length dem mask hlen]
  · exact demFilled_length dem mask hlen

theorem orientedFilled_cell (dem : List (List ℚ)) (mask : List (List Bool)) (w : WinT)
    (hlen : mask.length = dem.length) (i j : ℕ) (hi : i < dem.length) :
    cellQ (orientedFilled dem mask w) i j =
      cellQ (demFilled dem mask)
        (if flipCond w dem.length then dem.length - 1 - i else i) j := by
  unfold orientedFilled
  by_cases hf : flipCond w dem.length
  · rw [if_pos hf, if_pos hf]
    unfold flipud cellQ
    rw [getD_reverse _ i (by rw [demFilled_length dem mask hlen]; exact hi) []]
    rw [demFilled_length dem mask hlen]
  · rw [if_neg hf, if_neg hf]

theorem orientedFilled_row_length (dem : List (List ℚ)) (mask : List (List Bool)) (w : WinT)
    (hlen : mask.length = dem.length)
    (hrow : ∀ i, i < dem.length → (mask.getD i []).length = (dem.getD i []).length)
    (i : ℕ) (hi : i < dem.length) :
    ((orientedFilled dem mask w).getD i []).length =
      (dem.getD (if flipCond w dem.length then dem.length - 1 - i else i) []).length := by
  unfold orientedFilled
  by_cases hf : flipCond w dem.length
  · rw [if_pos hf, if_pos hf]
    unfold flipud
    rw [getD_reverse _ i (by rw [demFilled_length dem mask hlen]; exact hi) []]
    rw [demFilled_length dem mask hlen]
    exact demFilled_row_length dem mask hlen hrow _ (by omega)
  · rw [if_neg hf, if_neg hf]
    exact demFilled_row_length dem mask hlen hrow i hi

theorem orientedNormalized_cell (dem : List (List ℚ)) (mask : List (List Bool)) (w : WinT)
    (hlen : mask.length = dem.length) (i j : ℕ) (hi : i < dem.length) :
    cellQ (orientedNormalized dem mask w) i j =
      cellQ (normalized01 dem mask)
        (if flipCond w dem.length then dem.length - 1 - i else i) j := by
  unfold orientedNormalized
  by_cases hf : flipCond w dem.length
  · rw [if_pos hf, if_pos hf]
    unfold flipud cellQ
    rw [getD_reverse _ i (by rw [normalized01_length dem mask hlen]; exact hi) []]
    rw [normalized01_length dem mask hlen]
  · rw [if_neg hf, if_neg hf]

theorem pipelineZ_cell (dem : List (List ℚ)) (mask : List (List Bool)) (w : WinT)
    (cfg : GenerateConfig) (hlen : mask.length = dem.length) (i j : ℕ)
    (hi : i < dem.length) (hj : j < ((orientedFilled dem mask w).getD i []).length) :
    cellQ (pipelineZ dem mask w cfg) i j =
      (cellQ (orientedFilled dem mask w) i j - zMinSrc dem mask) *
        horizScale cfg w dem.length ((dem.headD []).length) * cfg.vertical_scale := by
  unfold pipelineZ
  unfold cellQ
  rw [getD_map_lt _ _ i [] [] (by rw [orientedFilled_length dem mask w hlen]; exact hi)]
  rw [getD_map_lt _ _ j 0 0 hj]

theorem getD_mem_of_lt {α : Type} (l : List α) (n : ℕ) (d : α) (h : n < l.length) :
    l.getD n d ∈ l := by
  rw [List.getD_eq_getElem l d h]
  exact List.getElem_mem h

theorem searchsorted_le (xs : List ℚ) (v : ℚ) (hp : List.Pairwise (· < ·) xs) (k : ℕ)
    (hk : k < searchsortedRight xs v) : k < xs.length ∧ xs.getD k 0 ≤ v := by
  induction xs generalizing k with
  | nil => simp [searchsortedRight] at hk
  | cons x xs ih =>
      have hx : ∀ y ∈ xs, x < y := fun y hy => (List.pairwise_cons.mp hp).1 y hy
      have hp' : List.Pairwise (· < ·) xs := (List.pairwise_cons.mp hp).2
      by_cases hxv : x ≤ v
      · have hss : searchsortedRight (x :: xs) v = searchsortedRight xs v + 1 := by
          unfold searchsortedRight
          rw [List.countP_cons]
          simp [hxv]
        cases k with
        | zero => exact ⟨by simp, by simpa using hxv⟩
        | succ n =>
            rw [hss] at hk
            have := ih hp' n (by omega)
            exact ⟨by simp; omega, by simpa using this.2⟩
      · exfalso
        have hz : searchsortedRight (x :: xs) v = 0 := by
          unfold searchsortedRight
          rw [List.countP_eq_zero]
          intro a ha
          rcases List.mem_cons.mp ha with rfl | ha'
          · simpa using hxv
          · have : v < a := lt_trans (lt_of_not_le hxv) (hx a ha')
            simpa using not_le.mpr this
        omega

theorem searchsorted_gt (xs : List ℚ) (v : ℚ) (hp : List.Pairwise (· < ·) xs) (k : ℕ)
    (hk : searchsortedRight xs v ≤ k) (hk2 : k < xs.length) : v < xs.getD k 0 := by
  induction xs generalizing k with
  | nil => simp at hk2
  | cons x xs ih =>
      have hx : ∀ y ∈ xs, x < y := fun y hy => (List.pairwise_cons.mp hp).1 y hy
      have hp' : List.Pairwise (· < ·) xs := (List.pairwise_cons.mp hp).2
      by_cases hxv : x ≤ v
      · have hss : searchsortedRight (x :: xs) v = searchsortedRight xs v + 1 := by
          unfold searchsortedRight
          rw [List.countP_cons]
          simp [hxv]
        cases k with
        | zero => omega
        | succ n =>
            rw [hss] at hk
            have := ih hp' n (by omega) (by simpa using hk2)
            simpa using this
      · cases k with
        | zero => simpa using lt_of_not_le hxv
        | succ n =>
            have hmem : xs.getD n 0 ∈ xs :=
              getD_mem_of_lt xs n 0 (by simpa using hk2)
            have : x < xs.getD n 0 := hx _ hmem
            have hv : v < x := lt_of_not_le hxv
            simpa using lt_trans hv this

theorem searchsorted_le_length (xs : List ℚ) (v : ℚ) :
    searchsortedRight xs v ≤ xs.length := List.countP_le_length _

theorem pairwise_getD_lt (xs : List ℚ) (hp : List.Pairwise (· < ·) xs) (i j : ℕ)
    (hij : i < j) (hj : j < xs.length) : xs.getD i 0 < xs.getD j 0 := by
  rw [List.getD_eq_getElem _ _ (by omega), List.getD_eq_getElem _ _ hj]
  exact List.pairwise_iff_getElem.mp hp i j (by omega) hj hij

theorem clip_mem (v lo hi : ℚ) (h : lo ≤ hi) :
    lo ≤ clipQ v lo hi ∧ clipQ v lo hi ≤ hi := by
  unfold clipQ
  exact ⟨le_min (le_max_right v lo) h, min_le_right _ _⟩

theorem cell_bracket (xs : List ℚ) (hs : List.Pairwise (· < ·) xs) (h2 : 2 ≤ xs.length)
    (p : ℚ) :
    sampleIx xs p + 1 < xs.length ∧
    xs.getD (sampleIx xs p) 0 ≤ clipQ p (xs.headD 0) (xs.getLastD 0) ∧
    clipQ p (xs.headD 0) (xs.getLastD 0) ≤ xs.getD (sampleIx xs p + 1) 0 ∧
    xs.getD (sampleIx xs p) 0 < xs.getD (sampleIx xs p + 1) 0 := by
  have hhl : xs.getD 0 0 < xs.getD (xs.length - 1) 0 :=
    pairwise_getD_lt xs hs 0 (xs.length - 1) (by omega) (by omega)
  have hhead : xs.headD 0 = xs.getD 0 0 := headD_eq_getD xs 0
  have hlast : xs.getLastD 0 = xs.getD (xs.length - 1) 0 := getLastD_eq_getD xs 0
  set x := clipQ p (xs.headD 0) (xs.getLastD 0) with hxdef
  have hcm := clip_mem p (xs.headD 0) (xs.getLastD 0) (by rw [hhead, hlast]; exact le_of_lt hhl)
  have hss1 : 1 ≤ searchsortedRight xs x := by
    have : 0 < List.countP (fun t => decide (t ≤ x)) xs := by
      rw [List.countP_pos_iff]
      refine ⟨xs.getD 0 0, getD_mem_of_lt xs 0 0 (by omega), ?_⟩
      simp only [decide_eq_true_eq]
      rw [← hhead]
      exact hcm.1
    unfold searchsortedRight
    omega
  have hlen := searchsorted_le_length xs x
  have hix : sampleIx xs p = min (searchsortedRight xs x - 1) (xs.length - 2) := rfl
  rcases Nat.lt_or_ge (searchsortedRight xs x) xs.length with hcase | hcase
  · -- ss ≤ n - 1: ix = ss - 1
    have hixv : sampleIx xs p = searchsortedRight xs x - 1 := by
      rw [hix]; omega
    refine ⟨by omega, ?_, ?_, ?_⟩
    · rw [hixv]
      exact (searchsorted_le xs x hs (searchsortedRight xs x - 1) (by omega)).2
    · rw [hixv]
      have : searchsortedRight xs x - 1 + 1 = searchsortedRight xs x := by omega
      rw [this]
      exact le_of_lt (searchsorted_gt xs x hs _ (le_refl _) hcase)
    · exact pairwise_getD_lt xs hs _ _ (by omega) (by omega)
  · -- ss = n: ix = n - 2
    have hssn : searchsortedRight xs x = xs.length := by omega
    have hixv : sampleIx xs p = xs.length - 2 := by rw [hix]; omega
    refine ⟨by omega, ?_, ?_, ?_⟩
    · rw [hixv]
      exact (searchsorted_le xs x hs (xs.length - 2) (by omega)).2
    · rw [hixv]
      have : xs.length - 2 + 1 = xs.length - 1 := by omega
      rw [this, ← hlast]
      exact hcm.2
    · exact pairwise_getD_lt xs hs _ _ (by omega) (by omega)

theorem lerp_bounds (a b t : ℚ) (h0 : 0 ≤ t) (h1 : t ≤ 1) :
    min a b ≤ a * (1 - t) + b * t ∧ a * (1 - t) + b * t ≤ max a b := by
  rcases le_total a b with hab | hab
  · rw [min_eq_left hab, max_eq_right hab]
    constructor <;> nlinarith
  · rw [min_eq_right hab, max_eq_left hab]
    constructor <;> nlinarith

theorem sample_formula (xs ys : List ℚ) (z : List (List ℚ)) (px py : ℚ) :
    sample_height_on_grid xs ys z px py =
      (cellQ z (sampleIx ys py) (sampleIx xs px) * (1 - fracOf xs px) +
        cellQ z (sampleIx ys py) (sampleIx xs px + 1) * fracOf xs px) * (1 - fracOf ys py) +
      (cellQ z (sampleIx ys py + 1) (sampleIx xs px) * (1 - fracOf xs px) +
        cellQ z (sampleIx ys py + 1) (sampleIx xs px + 1) * fracOf xs px) * fracOf ys py := rfl

theorem clip_of_mem (v lo hi : ℚ) (h1 : lo ≤ v) (h2 : v ≤ hi) : clipQ v lo hi = v := by
  unfold clipQ
  rw [max_eq_left h1, min_eq_left h2]

theorem frac_bounds (xs : List ℚ) (hs : List.Pairwise (· < ·) xs) (h2 : 2 ≤ xs.length)
    (p : ℚ) : 0 ≤ fracOf xs p ∧ fracOf xs p ≤ 1 := by
  obtain ⟨hb1, hlo, hhi, hlt⟩ := cell_bracket xs hs h2 p
  unfold fracOf
  rw [if_neg (ne_of_gt hlt)]
  have hpos : (0:ℚ) < xs.getD (sampleIx xs p + 1) 0 - xs.getD (sampleIx xs p) 0 := by linarith
  constructor
  · apply div_nonneg (by linarith) (le_of_lt hpos)
  · rw [div_le_one hpos]
    linarith

theorem tv_ne_bv (a b d e : ℕ) : ¬ (AV.tv a b = AV.bv d e) := fun h => AV.noConfusion h

theorem bv_ne_tv (a b d e : ℕ) : ¬ (AV.bv a b = AV.tv d e) := fun h => AV.noConfusion h

theorem edgeFaceCount_nil {α : Type} [DecidableEq α] (e : α × α) :
    edgeFaceCount ([] : List (α × α × α)) e = 0 := rfl

theorem edgeFaceCount_cons {α : Type} [DecidableEq α] (f : α × α × α)
    (l : List (α × α × α)) (e : α × α) :
    edgeFaceCount (f :: l) e =
      (if hasEdge f e = true then 1 else 0) + edgeFaceCount l e := by
  unfold edgeFaceCount
  rw [List.filter_cons]
  by_cases h : hasEdge f e = true
  · simp [h, Nat.add_comm]
  · simp [h]

theorem edgeFaceCount_append {α : Type} [DecidableEq α] (l1 l2 : List (α × α × α))
    (e : α × α) :
    edgeFaceCount (l1 ++ l2) e = edgeFaceCount l1 e + edgeFaceCount l2 e := by
  unfold edgeFaceCount
  rw [List.filter_append, List.length_append]

theorem edgeFaceCount_flatMap_range {α : Type} [DecidableEq α] (n : ℕ)
    (g : ℕ → List (α × α × α)) (e : α × α) :
    edgeFaceCount ((List.range n).flatMap g) e =
      ∑ i ∈ Finset.range n, edgeFaceCount (g i) e := by
  induction n with
  | zero => rfl
  | succ m ih =>
      rw [List.range_succ, List.flatMap_append, edgeFaceCount_append, ih,
        Finset.sum_range_succ]
      congr 1
      show edgeFaceCount (g m ++ []) e = edgeFaceCount (g m) e
      rw [List.append_nil]

theorem edgeFaceCount_swap {α : Type} [DecidableEq α] (l : List (α × α × α))
    (a b : α) :
    edgeFaceCount l (a, b) = edgeFaceCount l (b, a) := by
  unfold edgeFaceCount
  congr 1
  apply List.filter_congr
  intro f _
  unfold hasEdge
  exact decide_eq_decide.mpr (or_comm)

theorem sum1_eq (m b k : ℕ) (P : Prop) [Decidable P] :
    (∑ j ∈ Finset.range m, if j = b ∧ P then k else 0) =
      if b < m ∧ P then k else 0 := by
  induction m with
  | zero => simp
  | succ n ih =>
      rw [Finset.sum_range_succ, ih]
      by_cases hP : P
      · simp only [hP, and_true]
        split_ifs <;> omega
      · simp [hP]

theorem sum1_eq' (m b k : ℕ) (P : Prop) [Decidable P] :
    (∑ j ∈ Finset.range m, if P ∧ j = b then k else 0) =
      if P ∧ b < m then k else 0 := by
  induction m with
  | zero => simp
  | succ n ih =>
      rw [Finset.sum_range_succ, ih]
      by_cases hP : P
      · simp only [hP, true_and]
        split_ifs <;> omega
      · simp [hP]

theorem sum1_succ (m b k : ℕ) (P : Prop) [Decidable P] :
    (∑ j ∈ Finset.range m, if j + 1 = b ∧ P then k else 0) =
      if 1 ≤ b ∧ b ≤ m ∧ P then k else 0 := by
  induction m with
  | zero =>
      simp only [Finset.range_zero, Finset.sum_empty]
      rw [if_neg]
      rintro ⟨h1, h2, _⟩
      omega
  | succ n ih =>
      rw [Finset.sum_range_succ, ih]
      by_cases hP : P
      · simp only [hP, and_true]
        split_ifs <;> omega
      · simp [hP]

theorem sum1_succ' (m b k : ℕ) (P : Prop) [Decidable P] :
    (∑ j ∈ Finset.range m, if P ∧ j + 1 = b then k else 0) =
      if P ∧ 1 ≤ b ∧ b ≤ m then k else 0 := by
  induction m with
  | zero =>
      simp only [Finset.range_zero, Finset.sum_empty]
      rw [if_neg]
      rintro ⟨_, h1, h2⟩
      omega
  | succ n ih =>
      rw [Finset.sum_range_succ, ih]
      by_cases hP : P
      · simp only [hP, true_and]
        split_ifs <;> omega
      · simp [hP]

theorem count_split (R C : ℕ) (e : AV × AV) :
    edgeFaceCount (terrainFacesA R C) e =
      (∑ r ∈ Finset.range (R-1), ∑ c ∈ Finset.range (C-1),
        edgeFaceCount (quadFacesA r c) e) +
      (∑ c ∈ Finset.range (C-1),
        edgeFaceCount (wallFacesA (0, c) (0, c+1) ++ wallFacesA (R-1, c+1) (R-1, c)) e) +
      (∑ r ∈ Finset.range (R-1),
        edgeFaceCount (wallFacesA (r+1, 0) (r, 0) ++ wallFacesA (r, C-1) (r+1, C-1)) e) := by
  unfold terrainFacesA
  rw [edgeFaceCount_append, edgeFaceCount_append]
  rw [edgeFaceCount_flatMap_range, edgeFaceCount_flatMap_range, edgeFaceCount_flatMap_range]
  congr 1
  congr 1
  apply Finset.sum_congr rfl
  intro r _
  rw [edgeFaceCount_flatMap_range]

theorem cntQ_TH (r c q p : ℕ) :
    edgeFaceCount (quadFacesA q p) (.tv r c, .tv r (c+1)) =
      (if p = c ∧ q = r then 1 else 0) + (if p = c ∧ q + 1 = r then 1 else 0) := by
  simp only [quadFacesA, edgeFaceCount_cons, edgeFaceCount_nil, hasEdge, sidesOf,
    List.mem_cons, List.not_mem_nil, or_false, Prod.mk.injEq, AV.tv.injEq, AV.bv.injEq,
    tv_ne_bv, bv_ne_tv, decide_eq_true_eq, false_and, and_false, false_or, or_false,
    if_false, add_zero, zero_add]
  refine congrArg₂ (· + ·) ?_ ?_ <;> exact if_congr (by omega) rfl rfl

theorem cntNW_TH (R r c p : ℕ) :
    edgeFaceCount (wallFacesA (0, p) (0, p+1) ++ wallFacesA (R-1, p+1) (R-1, p))
      (.tv r c, .tv r (c+1)) =
      (if p = c ∧ r = 0 then 1 else 0) + (if p = c ∧ r = R-1 then 1 else 0) := by
  simp only [wallFacesA, List.cons_append, List.nil_append, edgeFaceCount_cons,
    edgeFaceCount_nil, hasEdge, sidesOf, List.mem_cons, List.not_mem_nil, or_false,
    Prod.mk.injEq, AV.tv.injEq, AV.bv.injEq, tv_ne_bv, bv_ne_tv, decide_eq_true_eq,
    false_and, and_false, false_or, or_false, if_false, add_zero, zero_add]
  refine congrArg₂ (· + ·) ?_ ?_ <;> exact if_congr (by omega) rfl rfl

theorem cntWE_TH (C r c q : ℕ) :
    edgeFaceCount (wallFacesA (q+1, 0) (q, 0) ++ wallFacesA (q, C-1) (q+1, C-1))
      (.tv r c, .tv r (c+1)) = 0 := by
  unfold edgeFaceCount
  rw [List.length_eq_zero, List.filter_eq_nil_iff]
  intro f hf
  simp only [wallFacesA, List.cons_append, List.nil_append, List.mem_cons,
    List.not_mem_nil, or_false] at hf
  rcases hf with rfl | rfl | rfl | rfl <;>
    · simp only [hasEdge, sidesOf, List.mem_cons, List.not_mem_nil, or_false,
        Prod.mk.injEq, AV.tv.injEq, AV.bv.injEq, tv_ne_bv, bv_ne_tv, decide_eq_true_eq,
        false_and, and_false, false_or, or_false, Bool.not_eq_true]
      first
      | exact not_false
      | omega

theorem class_TH (R C r c : ℕ) (h2r : 2 ≤ R) (h2c : 2 ≤ C) (hr : r < R) (hc : c < C - 1) :
    edgeFaceCount (terrainFacesA R C) (.tv r c, .tv r (c+1)) = 2 := by
  rw [count_split]
  simp only [cntQ_TH, cntNW_TH, cntWE_TH, Finset.sum_add_distrib, sum1_eq, sum1_eq',
    sum1_succ, sum1_succ', Finset.sum_const_zero]
  split_ifs <;> omega



theorem sum1_eq2 (m b k : ℕ) (P Q : Prop) [Decidable P] [Decidable Q] :
    (∑ j ∈ Finset.range m, if P ∧ Q ∧ j = b then k else 0) =
      if P ∧ Q ∧ b < m then k else 0 := by
  induction m with
  | zero => simp
  | succ n ih =>
      rw [Finset.sum_range_succ, ih]
      by_cases hP : P
      · by_cases hQ : Q
        · simp only [hP, hQ, true_and]
          split_ifs <;> omega
        · simp [hQ]
      · simp [hP]

theorem sum1_succ2 (m b k : ℕ) (P Q : Prop) [Decidable P] [Decidable Q] :
    (∑ j ∈ Finset.range m, if P ∧ Q ∧ j + 1 = b then k else 0) =
      if P ∧ Q ∧ 1 ≤ b ∧ b ≤ m then k else 0 := by
  induction m with
  | zero =>
      simp only [Finset.range_zero, Finset.sum_empty]
      rw [if_neg]
      rintro ⟨_, _, h1, h2⟩
      omega
  | succ n ih =>
      rw [Finset.sum_range_succ, ih]
      by_cases hP : P
      · by_cases hQ : Q
        · simp only [hP, hQ, true_and]
          split_ifs <;> omega
        · simp [hQ]
      · simp [hP]

theorem sum1_eq0 (m b k : ℕ) :
    (∑ j ∈ Finset.range m, if j = b then k else 0) = if b < m then k else 0 := by
  induction m with
  | zero => simp
  | succ n ih =>
      rw [Finset.sum_range_succ, ih]
      split_ifs <;> omega

theorem cntQ_TV (r c q p : ℕ) :
    edgeFaceCount (quadFacesA q p) (.tv r c, .tv (r+1) c) =
      (if p = c ∧ q = r then 1 else 0) + (if p + 1 = c ∧ q = r then 1 else 0) := by
  simp only [quadFacesA, edgeFaceCount_cons, edgeFaceCount_nil, hasEdge, sidesOf,
    List.mem_cons, List.not_mem_nil, or_false, Prod.mk.injEq, AV.tv.injEq, AV.bv.injEq,
    tv_ne_bv, bv_ne_tv, decide_eq_true_eq, false_and, and_false, false_or, or_false,
    if_false, add_zero, zero_add]
  refine congrArg₂ (· + ·) ?_ ?_ <;> exact if_congr (by omega) rfl rfl

theorem cntNW_TV (R r c p : ℕ) :
    edgeFaceCount (wallFacesA (0, p) (0, p+1) ++ wallFacesA (R-1, p+1) (R-1, p))
      (.tv r c, .tv (r+1) c) = 0 := by
  unfold edgeFaceCount
  rw [List.length_eq_zero, List.filter_eq_nil_iff]
  intro f hf
  simp only [wallFacesA, List.cons_append, List.nil_append, List.mem_cons,
    List.not_mem_nil, or_false] at hf
  rcases hf with rfl | rfl | rfl | rfl <;>
    · simp only [hasEdge, sidesOf, List.mem_cons, List.not_mem_nil, or_false,
        Prod.mk.injEq, AV.tv.injEq, AV.bv.injEq, tv_ne_bv, bv_ne_tv, decide_eq_true_eq,
        false_and, and_false, false_or, or_false, Bool.not_eq_true]
      first
      | exact not_false
      | omega

theorem cntWE_TV (C r c q : ℕ) :
    edgeFaceCount (wallFacesA (q+1, 0) (q, 0) ++ wallFacesA (q, C-1) (q+1, C-1))
      (.tv r c, .tv (r+1) c) =
      (if q = r ∧ c = 0 then 1 else 0) + (if q = r ∧ c = C-1 then 1 else 0) := by
  simp only [wallFacesA, List.cons_append, List.nil_append, edgeFaceCount_cons,
    edgeFaceCount_nil, hasEdge, sidesOf, List.mem_cons, List.not_mem_nil, or_false,
    Prod.mk.injEq, AV.tv.injEq, AV.bv.injEq, tv_ne_bv, bv_ne_tv, decide_eq_true_eq,
    false_and, and_false, false_or, or_false, if_false, add_zero, zero_add]
  refine congrArg₂ (· + ·) ?_ ?_ <;> exact if_congr (by omega) rfl rfl

theorem class_TV (R C r c : ℕ) (h2r : 2 ≤ R) (h2c : 2 ≤ C) (hr : r < R - 1) (hc : c < C) :
    edgeFaceCount (terrainFacesA R C) (.tv r c, .tv (r+1) c) = 2 := by
  rw [count_split]
  simp only [cntQ_TV, cntNW_TV, cntWE_TV, Finset.sum_add_distrib, sum1_eq, sum1_eq',
    sum1_eq0, sum1_succ, sum1_succ', sum1_eq2, sum1_succ2, Finset.sum_const_zero]
  split_ifs <;> omega

theorem cntQ_TD (r c q p : ℕ) :
    edgeFaceCount (quadFacesA q p) (.tv (r+1) c, .tv r (c+1)) =
      (if p = c ∧ q = r then 1 else 0) + (if p = c ∧ q = r then 1 else 0) := by
  simp only [quadFacesA, edgeFaceCount_cons, edgeFaceCount_nil, hasEdge, sidesOf,
    List.mem_cons, List.not_mem_nil, or_false, Prod.mk.injEq, AV.tv.injEq, AV.bv.injEq,
    tv_ne_bv, bv_ne_tv, decide_eq_true_eq, false_and, and_false, false_or, or_false,
    if_false, add_zero, zero_add]
  refine congrArg₂ (· + ·) ?_ ?_ <;> exact if_congr (by omega) rfl rfl

theorem cntNW_TD (R r c p : ℕ) :
    edgeFaceCount (wallFacesA (0, p) (0, p+1) ++ wallFacesA (R-1, p+1) (R-1, p))
      (.tv (r+1) c, .tv r (c+1)) = 0 := by
  unfold edgeFaceCount
  rw [List.length_eq_zero, List.filter_eq_nil_iff]
  intro f hf
  simp only [wallFacesA, List.cons_append, List.nil_append, List.mem_cons,
    List.not_mem_nil, or_false] at hf
  rcases hf with rfl | rfl | rfl | rfl <;>
    · simp only [hasEdge, sidesOf, List.mem_cons, List.not_mem_nil, or_false,
        Prod.mk.injEq, AV.tv.injEq, AV.bv.injEq, tv_ne_bv, bv_ne_tv, decide_eq_true_eq,
        false_and, and_false, false_or, or_false, Bool.not_eq_true]
      first
      | exact not_false
      | omega

theorem cntWE_TD (C r c q : ℕ) :
    edgeFaceCount (wallFacesA (q+1, 0) (q, 0) ++ wallFacesA (q, C-1) (q+1, C-1))
      (.tv (r+1) c, .tv r (c+1)) = 0 := by
  unfold edgeFaceCount
  rw [List.length_eq_zero, List.filter_eq_nil_iff]
  intro f hf
  simp only [wallFacesA, List.cons_append, List.nil_append, List.mem_cons,
    List.not_mem_nil, or_false] at hf
  rcases hf with rfl | rfl | rfl | rfl <;>
    · simp only [hasEdge, sidesOf, List.mem_cons, List.not_mem_nil, or_false,
        Prod.mk.injEq, AV.tv.injEq, AV.bv.injEq, tv_ne_bv, bv_ne_tv, decide_eq_true_eq,
        false_and, and_false, false_or, or_false, Bool.not_eq_true]
      first
      | exact not_false
      | omega

theorem class_TD (R C r c : ℕ) (h2r : 2 ≤ R) (h2c : 2 ≤ C) (hr : r < R - 1) (hc : c < C - 1) :
    edgeFaceCount (terrainFacesA R C) (.tv (r+1) c, .tv r (c+1)) = 2 := by
  rw [count_split]
  simp only [cntQ_TD, cntNW_TD, cntWE_TD, Finset.sum_add_distrib, sum1_eq, sum1_eq',
    sum1_eq0, sum1_succ, sum1_succ', sum1_eq2, sum1_succ2, Finset.sum_const_zero]
  split_ifs <;> omega

theorem cntQ_BH (r c q p : ℕ) :
    edgeFaceCount (quadFacesA q p) (.bv r c, .bv r (c+1)) =
      (if p = c ∧ q = r then 1 else 0) + (if p = c ∧ q + 1 = r then 1 else 0) := by
  simp only [quadFacesA, edgeFaceCount_cons, edgeFaceCount_nil, hasEdge, sidesOf,
    List.mem_cons, List.not_mem_nil, or_false, Prod.mk.injEq, AV.tv.injEq, AV.bv.injEq,
    tv_ne_bv, bv_ne_tv, decide_eq_true_eq, false_and, and_false, false_or, or_false,
    if_false, add_zero, zero_add]
  refine congrArg₂ (· + ·) ?_ ?_ <;> exact if_congr (by omega) rfl rfl

theorem cntNW_BH (R r c p : ℕ) :
    edgeFaceCount (wallFacesA (0, p) (0, p+1) ++ wallFacesA (R-1, p+1) (R-1, p))
      (.bv r c, .bv r (c+1)) =
      (if p = c ∧ r = 0 then 1 else 0) + (if p = c ∧ r = R-1 then 1 else 0) := by
  simp only [wallFacesA, List.cons_append, List.nil_append, edgeFaceCount_cons,
    edgeFaceCount_nil, hasEdge, sidesOf, List.mem_cons, List.not_mem_nil, or_false,
    Prod.mk.injEq, AV.tv.injEq, AV.bv.injEq, tv_ne_bv, bv_ne_tv, decide_eq_true_eq,
    false_and, and_false, false_or, or_false, if_false, add_zero, zero_add]
  refine congrArg₂ (· + ·) ?_ ?_ <;> exact if_congr (by omega) rfl rfl

theorem cntWE_BH (C r c q : ℕ) :
    edgeFaceCount (wallFacesA (q+1, 0) (q, 0) ++ wallFacesA (q, C-1) (q+1, C-1))
      (.bv r c, .bv r (c+1)) = 0 := by
  unfold edgeFaceCount
  rw [List.length_eq_zero, List.filter_eq_nil_iff]
  intro f hf
  simp only [wallFacesA, List.cons_append, List.nil_append, List.mem_cons,
    List.not_mem_nil, or_false] at hf
  rcases hf with rfl | rfl | rfl | rfl <;>
    · simp only [hasEdge, sidesOf, List.mem_cons, List.not_mem_nil, or_false,
        Prod.mk.injEq, AV.tv.injEq, AV.bv.injEq, tv_ne_bv, bv_ne_tv, decide_eq_true_eq,
        false_and, and_false, false_or, or_false, Bool.not_eq_true]
      first
      | exact not_false
      | omega

theorem class_BH (R C r c : ℕ) (h2r : 2 ≤ R) (h2c : 2 ≤ C) (hr : r < R) (hc : c < C - 1) :
    edgeFaceCount (terrainFacesA R C) (.bv r c, .bv r (c+1)) = 2 := by
  rw [count_split]
  simp only [cntQ_BH, cntNW_BH, cntWE_BH, Finset.sum_add_distrib, sum1_eq, sum1_eq',
    sum1_eq0, sum1_succ, sum1_succ', sum1_eq2, sum1_succ2, Finset.sum_const_zero]
  split_ifs <;> omega

theorem cntQ_BV (r c q p : ℕ) :
    edgeFaceCount (quadFacesA q p) (.bv r c, .bv (r+1) c) =
      (if p = c ∧ q = r then 1 else 0) + (if p + 1 = c ∧ q = r then 1 else 0) := by
  simp only [quadFacesA, edgeFaceCount_cons, edgeFaceCount_nil, hasEdge, sidesOf,
    List.mem_cons, List.not_mem_nil, or_false, Prod.mk.injEq, AV.tv.injEq, AV.bv.injEq,
    tv_ne_bv, bv_ne_tv, decide_eq_true_eq, false_and, and_false, false_or, or_false,
    if_false, add_zero, zero_add]
  refine congrArg₂ (· + ·) ?_ ?_ <;> exact if_congr (by omega) rfl rfl

theorem cntNW_BV (R r c p : ℕ) :
    edgeFaceCount (wallFacesA (0, p) (0, p+1) ++ wallFacesA (R-1, p+1) (R-1, p))
      (.bv r c, .bv (r+1) c) = 0 := by
  unfold edgeFaceCount
  rw [List.length_eq_zero, List.filter_eq_nil_iff]
  intro f hf
  simp only [wallFacesA, List.cons_append, List.nil_append, List.mem_cons,
    List.not_mem_nil, or_false] at hf
  rcases hf with rfl | rfl | rfl | rfl <;>
    · simp only [hasEdge, sidesOf, List.mem_cons, List.not_mem_nil, or_false,
        Prod.mk.injEq, AV.tv.injEq, AV.bv.injEq, tv_ne_bv, bv_ne_tv, decide_eq_true_eq,
        false_and, and_false, false_or, or_false, Bool.not_eq_true]
      first
      | exact not_false
      | omega

theorem cntWE_BV (C r c q : ℕ) :
    edgeFaceCount (wallFacesA (q+1, 0) (q, 0) ++ wallFacesA (q, C-1) (q+1, C-1))
      (.bv r c, .bv (r+1) c) =
      (if q = r ∧ c = 0 then 1 else 0) + (if q = r ∧ c = C-1 then 1 else 0) := by
  simp only [wallFacesA, List.cons_append, List.nil_append, edgeFaceCount_cons,
    edgeFaceCount_nil, hasEdge, sidesOf, List.mem_cons, List.not_mem_nil, or_false,
    Prod.mk.injEq, AV.tv.injEq, AV.bv.injEq, tv_ne_bv, bv_ne_tv, decide_eq_true_eq,
    false_and, and_false, false_or, or_false, if_false, add_zero, zero_add]
  refine congrArg₂ (· + ·) ?_ ?_ <;> exact if_congr (by omega) rfl rfl

theorem class_BV (R C r c : ℕ) (h2r : 2 ≤ R) (h2c : 2 ≤ C) (hr : r < R - 1) (hc : c < C) :
    edgeFaceCount (terrainFacesA R C) (.bv r c, .bv (r+1) c) = 2 := by
  rw [count_split]
  simp only [cntQ_BV, cntNW_BV, cntWE_BV, Finset.sum_add_distrib, sum1_eq, sum1_eq',
    sum1_eq0, sum1_succ, sum1_succ', sum1_eq2, sum1_succ2, Finset.sum_const_zero]
  split_ifs <;> omega

theorem cntQ_BD (r c q p : ℕ) :
    edgeFaceCount (quadFacesA q p) (.bv r (c+1), .bv (r+1) c) =
      (if p = c ∧ q = r then 1 else 0) + (if p = c ∧ q = r then 1 else 0) := by
  simp only [quadFacesA, edgeFaceCount_cons, edgeFaceCount_nil, hasEdge, sidesOf,
    List.mem_cons, List.not_mem_nil, or_false, Prod.mk.injEq, AV.tv.injEq, AV.bv.injEq,
    tv_ne_bv, bv_ne_tv, decide_eq_true_eq, false_and, and_false, false_or, or_false,
    if_false, add_zero, zero_add]
  refine congrArg₂ (· + ·) ?_ ?_ <;> exact if_congr (by omega) rfl rfl

theorem cntNW_BD (R r c p : ℕ) :
    edgeFaceCount (wallFacesA (0, p) (0, p+1) ++ wallFacesA (R-1, p+1) (R-1, p))
      (.bv r (c+1), .bv (r+1) c) = 0 := by
  unfold edgeFaceCount
  rw [List.length_eq_zero, List.filter_eq_nil_iff]
  intro f hf
  simp only [wallFacesA, List.cons_append, List.nil_append, List.mem_cons,
    List.not_mem_nil, or_false] at hf
  rcases hf with rfl | rfl | rfl | rfl <;>
    · simp only [hasEdge, sidesOf, List.mem_cons, List.not_mem_nil, or_false,
        Prod.mk.injEq, AV.tv.injEq, AV.bv.injEq, tv_ne_bv, bv_ne_tv, decide_eq_true_eq,
        false_and, and_false, false_or, or_false, Bool.not_eq_true]
      first
      | exact not_false
      | omega

theorem cntWE_BD (C r c q : ℕ) :
    edgeFaceCount (wallFacesA (q+1, 0) (q, 0) ++ wallFacesA (q, C-1) (q+1, C-1))
      (.bv r (c+1), .bv (r+1) c) = 0 := by
  unfold edgeFaceCount
  rw [List.length_eq_zero, List.filter_eq_nil_iff]
  intro f hf
  simp only [wallFacesA, List.cons_append, List.nil_append, List.mem_cons,
    List.not_mem_nil, or_false] at hf
  rcases hf with rfl | rfl | rfl | rfl <;>
    · simp only [hasEdge, sidesOf, List.mem_cons, List.not_mem_nil, or_false,
        Prod.mk.injEq, AV.tv.injEq, AV.bv.injEq, tv_ne_bv, bv_ne_tv, decide_eq_true_eq,
        false_and, and_false, false_or, or_false, Bool.not_eq_true]
      first
      | exact not_false
      | omega

theorem class_BD (R C r c : ℕ) (h2r : 2 ≤ R) (h2c : 2 ≤ C) (hr : r < R - 1) (hc : c < C - 1) :
    edgeFaceCount (terrainFacesA R C) (.bv r (c+1), .bv (r+1) c) = 2 := by
  rw [count_split]
  simp only [cntQ_BD, cntNW_BD, cntWE_BD, Finset.sum_add_distrib, sum1_eq, sum1_eq',
    sum1_eq0, sum1_succ, sum1_succ', sum1_eq2, sum1_succ2, Finset.sum_const_zero]
  split_ifs <;> omega

theorem cntQ_mixed (q p a b d f : ℕ) :
    edgeFaceCount (quadFacesA q p) (.tv a b, .bv d f) = 0 := by
  unfold edgeFaceCount
  rw [List.length_eq_zero, List.filter_eq_nil_iff]
  intro g hg
  simp only [quadFacesA, List.mem_cons, List.not_mem_nil, or_false] at hg
  rcases hg with rfl | rfl | rfl | rfl <;>
    · simp only [hasEdge, sidesOf, List.mem_cons, List.not_mem_nil, or_false,
        Prod.mk.injEq, AV.tv.injEq, AV.bv.injEq, tv_ne_bv, bv_ne_tv, decide_eq_true_eq,
        false_and, and_false, false_or, or_false, Bool.not_eq_true]
      exact not_false

theorem cntNW_WV (R r c p : ℕ) :
    edgeFaceCount (wallFacesA (0, p) (0, p+1) ++ wallFacesA (R-1, p+1) (R-1, p))
      (.tv r c, .bv r c) =
      (if p = c ∧ r = 0 then 1 else 0) + (if p + 1 = c ∧ r = 0 then 1 else 0) +
      ((if p + 1 = c ∧ r = R-1 then 1 else 0) + (if p = c ∧ r = R-1 then 1 else 0)) := by
  simp only [wallFacesA, List.cons_append, List.nil_append, edgeFaceCount_cons,
    edgeFaceCount_nil, hasEdge, sidesOf, List.mem_cons, List.not_mem_nil, or_false,
    Prod.mk.injEq, AV.tv.injEq, AV.bv.injEq, tv_ne_bv, bv_ne_tv, decide_eq_true_eq,
    false_and, and_false, false_or, or_false, if_false, add_zero, zero_add, add_assoc]
  refine congrArg₂ (· + ·) ?_ (congrArg₂ (· + ·) ?_ (congrArg₂ (· + ·) ?_ ?_)) <;>
    exact if_congr (by omega) rfl rfl

theorem cntWE_WV (C r c q : ℕ) :
    edgeFaceCount (wallFacesA (q+1, 0) (q, 0) ++ wallFacesA (q, C-1) (q+1, C-1))
      (.tv r c, .bv r c) =
      (if q + 1 = r ∧ c = 0 then 1 else 0) + (if q = r ∧ c = 0 then 1 else 0) +
      ((if q = r ∧ c = C-1 then 1 else 0) + (if q + 1 = r ∧ c = C-1 then 1 else 0)) := by
  simp only [wallFacesA, List.cons_append, List.nil_append, edgeFaceCount_cons,
    edgeFaceCount_nil, hasEdge, sidesOf, List.mem_cons, List.not_mem_nil, or_false,
    Prod.mk.injEq, AV.tv.injEq, AV.bv.injEq, tv_ne_bv, bv_ne_tv, decide_eq_true_eq,
    false_and, and_false, false_or, or_false, if_false, add_zero, zero_add, add_assoc]
  refine congrArg₂ (· + ·) ?_ (congrArg₂ (· + ·) ?_ (congrArg₂ (· + ·) ?_ ?_)) <;>
    exact if_congr (by omega) rfl rfl

theorem class_WV (R C r c : ℕ) (h2r : 2 ≤ R) (h2c : 2 ≤ C) (hr : r < R) (hc : c < C)
    (hb : r = 0 ∨ r = R - 1 ∨ c = 0 ∨ c = C - 1) :
    edgeFaceCount (terrainFacesA R C) (.tv r c, .bv r c) = 2 := by
  rw [count_split]
  simp only [cntQ_mixed, cntNW_WV, cntWE_WV, Finset.sum_add_distrib, sum1_eq, sum1_eq',
    sum1_eq0, sum1_succ, sum1_succ', sum1_eq2, sum1_succ2, Finset.sum_const_zero]
  split_ifs <;> omega

theorem cntNW_ND (R : ℕ) (h2r : 2 ≤ R) (c p : ℕ) :
    edgeFaceCount (wallFacesA (0, p) (0, p+1) ++ wallFacesA (R-1, p+1) (R-1, p))
      (.tv 0 (c+1), .bv 0 c) =
      (if p = c then 1 else 0) + (if p = c then 1 else 0) := by
  have hA : ¬ ((0 : ℕ) = R - 1) := by omega
  have hB : ¬ (R - 1 = 0) := by omega
  simp only [wallFacesA, List.cons_append, List.nil_append, edgeFaceCount_cons,
    edgeFaceCount_nil, hasEdge, sidesOf, List.mem_cons, List.not_mem_nil, or_false,
    Prod.mk.injEq, AV.tv.injEq, AV.bv.injEq, tv_ne_bv, bv_ne_tv, decide_eq_true_eq, hA, hB,
    false_and, and_false, true_and, and_true, false_or, or_false, if_false, add_zero,
    zero_add, add_assoc]
  refine congrArg₂ (· + ·) ?_ ?_ <;> exact if_congr (by omega) rfl rfl

theorem cntWE_ND (C c q : ℕ) :
    edgeFaceCount (wallFacesA (q+1, 0) (q, 0) ++ wallFacesA (q, C-1) (q+1, C-1))
      (.tv 0 (c+1), .bv 0 c) = 0 := by
  unfold edgeFaceCount
  rw [List.length_eq_zero, List.filter_eq_nil_iff]
  intro f hf
  simp only [wallFacesA, List.cons_append, List.nil_append, List.mem_cons,
    List.not_mem_nil, or_false] at hf
  rcases hf with rfl | rfl | rfl | rfl <;>
    · simp only [hasEdge, sidesOf, List.mem_cons, List.not_mem_nil, or_false,
        Prod.mk.injEq, AV.tv.injEq, AV.bv.injEq, tv_ne_bv, bv_ne_tv, decide_eq_true_eq,
        false_and, and_false, false_or, or_false, Bool.not_eq_true]
      first
      | exact not_false
      | omega

theorem class_ND (R C c : ℕ) (h2r : 2 ≤ R) (h2c : 2 ≤ C) (hc : c < C - 1) :
    edgeFaceCount (terrainFacesA R C) (.tv 0 (c+1), .bv 0 c) = 2 := by
  rw [count_split]
  simp only [cntQ_mixed, cntNW_ND R h2r, cntWE_ND, Finset.sum_add_distrib, sum1_eq,
    sum1_eq', sum1_eq0, sum1_succ, sum1_succ', sum1_eq2, sum1_succ2,
    Finset.sum_const_zero]
  split_ifs <;> omega

theorem cntNW_SD (R : ℕ) (h2r : 2 ≤ R) (c p : ℕ) :
    edgeFaceCount (wallFacesA (0, p) (0, p+1) ++ wallFacesA (R-1, p+1) (R-1, p))
      (.tv (R-1) c, .bv (R-1) (c+1)) =
      (if p = c then 1 else 0) + (if p = c then 1 else 0) := by
  have hA : ¬ ((0 : ℕ) = R - 1) := by omega
  have hB : ¬ (R - 1 = 0) := by omega
  simp only [wallFacesA, List.cons_append, List.nil_append, edgeFaceCount_cons,
    edgeFaceCount_nil, hasEdge, sidesOf, List.mem_cons, List.not_mem_nil, or_false,
    Prod.mk.injEq, AV.tv.injEq, AV.bv.injEq, tv_ne_bv, bv_ne_tv, decide_eq_true_eq, hA, hB,
    false_and, and_false, true_and, and_true, false_or, or_false, if_false, add_zero,
    zero_add, add_assoc]
  refine congrArg₂ (· + ·) ?_ ?_ <;> exact if_congr (by omega) rfl rfl

theorem cntWE_SD (R C c q : ℕ) :
    edgeFaceCount (wallFacesA (q+1, 0) (q, 0) ++ wallFacesA (q, C-1) (q+1, C-1))
      (.tv (R-1) c, .bv (R-1) (c+1)) = 0 := by
  unfold edgeFaceCount
  rw [List.length_eq_zero, List.filter_eq_nil_iff]
  intro f hf
  simp only [wallFacesA, List.cons_append, List.nil_append, List.mem_cons,
    List.not_mem_nil, or_false] at hf
  rcases hf with rfl | rfl | rfl | rfl <;>
    · simp only [hasEdge, sidesOf, List.mem_cons, List.not_mem_nil, or_false,
        Prod.mk.injEq, AV.tv.injEq, AV.bv.injEq, tv_ne_bv, bv_ne_tv, decide_eq_true_eq,
        false_and, and_false, false_or, or_false, Bool.not_eq_true]
      first
      | exact not_false
      | omega

theorem class_SD (R C c : ℕ) (h2r : 2 ≤ R) (h2c : 2 ≤ C) (hc : c < C - 1) :
    edgeFaceCount (terrainFacesA R C) (.tv (R-1) c, .bv (R-1) (c+1)) = 2 := by
  rw [count_split]
  simp only [cntQ_mixed, cntNW_SD R h2r, cntWE_SD, Finset.sum_add_distrib, sum1_eq,
    sum1_eq', sum1_eq0, sum1_succ, sum1_succ', sum1_eq2, sum1_succ2,
    Finset.sum_const_zero]
  split_ifs <;> omega

theorem cntNW_WD (R r p : ℕ) :
    edgeFaceCount (wallFacesA (0, p) (0, p+1) ++ wallFacesA (R-1, p+1) (R-1, p))
      (.tv r 0, .bv (r+1) 0) = 0 := by
  unfold edgeFaceCount
  rw [List.length_eq_zero, List.filter_eq_nil_iff]
  intro f hf
  simp only [wallFacesA, List.cons_append, List.nil_append, List.mem_cons,
    List.not_mem_nil, or_false] at hf
  rcases hf with rfl | rfl | rfl | rfl <;>
    · simp only [hasEdge, sidesOf, List.mem_cons, List.not_mem_nil, or_false,
        Prod.mk.injEq, AV.tv.injEq, AV.bv.injEq, tv_ne_bv, bv_ne_tv, decide_eq_true_eq,
        false_and, and_false, false_or, or_false, Bool.not_eq_true]
      first
      | exact not_false
      | omega

theorem cntWE_WD (C : ℕ) (h2c : 2 ≤ C) (r q : ℕ) :
    edgeFaceCount (wallFacesA (q+1, 0) (q, 0) ++ wallFacesA (q, C-1) (q+1, C-1))
      (.tv r 0, .bv (r+1) 0) =
      (if q = r then 1 else 0) + (if q = r then 1 else 0) := by
  have hA : ¬ ((0 : ℕ) = C - 1) := by omega
  have hB : ¬ (C - 1 = 0) := by omega
  simp only [wallFacesA, List.cons_append, List.nil_append, edgeFaceCount_cons,
    edgeFaceCount_nil, hasEdge, sidesOf, List.mem_cons, List.not_mem_nil, or_false,
    Prod.mk.injEq, AV.tv.injEq, AV.bv.injEq, tv_ne_bv, bv_ne_tv, decide_eq_true_eq, hA, hB,
    false_and, and_false, true_and, and_true, false_or, or_false, if_false, add_zero,
    zero_add, add_assoc]
  refine congrArg₂ (· + ·) ?_ ?_ <;> exact if_congr (by omega) rfl rfl

theorem class_WD (R C r : ℕ) (h2r : 2 ≤ R) (h2c : 2 ≤ C) (hr : r < R - 1) :
    edgeFaceCount (terrainFacesA R C) (.tv r 0, .bv (r+1) 0) = 2 := by
  rw [count_split]
  simp only [cntQ_mixed, cntNW_WD, cntWE_WD C h2c, Finset.sum_add_distrib,
    sum1_eq, sum1_eq', sum1_eq0, sum1_succ, sum1_succ', sum1_eq2, sum1_succ2,
    Finset.sum_const_zero]
  split_ifs <;> omega

theorem cntNW_ED (R C r p : ℕ) :
    edgeFaceCount (wallFacesA (0, p) (0, p+1) ++ wallFacesA (R-1, p+1) (R-1, p))
      (.tv (r+1) (C-1), .bv r (C-1)) = 0 := by
  unfold edgeFaceCount
  rw [List.length_eq_zero, List.filter_eq_nil_iff]
  intro f hf
  simp only [wallFacesA, List.cons_append, List.nil_append, List.mem_cons,
    List.not_mem_nil, or_false] at hf
  rcases hf with rfl | rfl | rfl | rfl <;>
    · simp only [hasEdge, sidesOf, List.mem_cons, List.not_mem_nil, or_false,
        Prod.mk.injEq, AV.tv.injEq, AV.bv.injEq, tv_ne_bv, bv_ne_tv, decide_eq_true_eq,
        false_and, and_false, false_or, or_false, Bool.not_eq_true]
      first
      | exact not_false
      | omega

theorem cntWE_ED (C : ℕ) (h2c : 2 ≤ C) (r q : ℕ) :
    edgeFaceCount (wallFacesA (q+1, 0) (q, 0) ++ wallFacesA (q, C-1) (q+1, C-1))
      (.tv (r+1) (C-1), .bv r (C-1)) =
      (if q = r then 1 else 0) + (if q = r then 1 else 0) := by
  have hA : ¬ ((0 : ℕ) = C - 1) := by omega
  have hB : ¬ (C - 1 = 0) := by omega
  simp only [wallFacesA, List.cons_append, List.nil_append, edgeFaceCount_cons,
    edgeFaceCount_nil, hasEdge, sidesOf, List.mem_cons, List.not_mem_nil, or_false,
    Prod.mk.injEq, AV.tv.injEq, AV.bv.injEq, tv_ne_bv, bv_ne_tv, decide_eq_true_eq, hA, hB,
    false_and, and_false, true_and, and_true, false_or, or_false, if_false, add_zero,
    zero_add, add_assoc]
  refine congrArg₂ (· + ·) ?_ ?_ <;> exact if_congr (by omega) rfl rfl

theorem class_ED (R C r : ℕ) (h2r : 2 ≤ R) (h2c : 2 ≤ C) (hr : r < R - 1) :
    edgeFaceCount (terrainFacesA R C) (.tv (r+1) (C-1), .bv r (C-1)) = 2 := by
  rw [count_split]
  simp only [cntQ_mixed, cntNW_ED, cntWE_ED C h2c, Finset.sum_add_distrib,
    sum1_eq, sum1_eq', sum1_eq0, sum1_succ, sum1_succ', sum1_eq2, sum1_succ2,
    Finset.sum_const_zero]
  split_ifs <;> omega

theorem countA_two (R C : ℕ) (h2r : 2 ≤ R) (h2c : 2 ≤ C)
    (f : AV × AV × AV) (hf : f ∈ terrainFacesA R C) (e : AV × AV) (he : e ∈ sidesOf f) :
    edgeFaceCount (terrainFacesA R C) e = 2 := by
  simp only [terrainFacesA, List.mem_append, List.mem_flatMap, List.mem_range] at hf
  rcases hf with (⟨r, hr, c, hc, hfq⟩ | ⟨c, hc, hfn⟩) | ⟨r, hr, hfw⟩
  · simp only [quadFacesA, List.mem_cons, List.not_mem_nil, or_false] at hfq
    rcases hfq with rfl | rfl | rfl | rfl <;>
        simp only [sidesOf, List.mem_cons, List.not_mem_nil, or_false] at he
    · rcases he with rfl | rfl | rfl
      · exact class_TV R C r c h2r h2c hr (by omega)
      · exact class_TD R C r c h2r h2c hr hc
      · rw [edgeFaceCount_swap]
        exact class_TH R C r c h2r h2c (by omega) hc
    · rcases he with rfl | rfl | rfl
      · rw [edgeFaceCount_swap]
        exact class_TD R C r c h2r h2c hr hc
      · exact class_TH R C (r+1) c h2r h2c (by omega) hc
      · rw [edgeFaceCount_swap]
        exact class_TV R C r (c+1) h2r h2c hr (by omega)
    · rcases he with rfl | rfl | rfl
      · exact class_BH R C r c h2r h2c (by omega) hc
      · exact class_BD R C r c h2r h2c hr hc
      · rw [edgeFaceCount_swap]
        exact class_BV R C r c h2r h2c hr (by omega)
    · rcases he with rfl | rfl | rfl
      · exact class_BV R C r (c+1) h2r h2c hr (by omega)
      · rw [edgeFaceCount_swap]
        exact class_BH R C (r+1) c h2r h2c (by omega) hc
      · rw [edgeFaceCount_swap]
        exact class_BD R C r c h2r h2c hr hc
  · simp only [wallFacesA, List.mem_append, List.mem_cons, List.not_mem_nil,
      or_false] at hfn
    rcases hfn with (rfl | rfl) | (rfl | rfl) <;>
        simp only [sidesOf, List.mem_cons, List.not_mem_nil, or_false] at he
    · rcases he with rfl | rfl | rfl
      · exact class_TH R C 0 c h2r h2c (by omega) hc
      · exact class_ND R C c h2r h2c hc
      · rw [edgeFaceCount_swap]
        exact class_WV R C 0 c h2r h2c (by omega) (by omega) (Or.inl rfl)
    · rcases he with rfl | rfl | rfl
      · exact class_WV R C 0 (c+1) h2r h2c (by omega) (by omega) (Or.inl rfl)
      · rw [edgeFaceCount_swap]
        exact class_BH R C 0 c h2r h2c (by omega) hc
      · rw [edgeFaceCount_swap]
        exact class_ND R C c h2r h2c hc
    · rcases he with rfl | rfl | rfl
      · rw [edgeFaceCount_swap]
        exact class_TH R C (R-1) c h2r h2c (by omega) hc
      · exact class_SD R C c h2r h2c hc
      · rw [edgeFaceCount_swap]
        exact class_WV R C (R-1) (c+1) h2r h2c (by omega) (by omega) (Or.inr (Or.inl rfl))
    · rcases he with rfl | rfl | rfl
      · exact class_WV R C (R-1) c h2r h2c (by omega) (by omega) (Or.inr (Or.inl rfl))
      · exact class_BH R C (R-1) c h2r h2c (by omega) hc
      · rw [edgeFaceCount_swap]
        exact class_SD R C c h2r h2c hc
  · simp only [wallFacesA, List.mem_append, List.mem_cons, List.not_mem_nil,
      or_false] at hfw
    rcases hfw with (rfl | rfl) | (rfl | rfl) <;>
        simp only [sidesOf, List.mem_cons, List.not_mem_nil, or_false] at he
    · rcases he with rfl | rfl | rfl
      · rw [edgeFaceCount_swap]
        exact class_TV R C r 0 h2r h2c hr (by omega)
      · exact class_WD R C r h2r h2c hr
      · rw [edgeFaceCount_swap]
        exact class_WV R C (r+1) 0 h2r h2c (by omega) (by omega)
          (Or.inr (Or.inr (Or.inl rfl)))
    · rcases he with rfl | rfl | rfl
      · exact class_WV R C r 0 h2r h2c (by omega) (by omega)
          (Or.inr (Or.inr (Or.inl rfl)))
      · exact class_BV R C r 0 h2r h2c hr (by omega)
      · rw [edgeFaceCount_swap]
        exact class_WD R C r h2r h2c hr
    · rcases he with rfl | rfl | rfl
      · exact class_TV R C r (C-1) h2r h2c hr (by omega)
      · exact class_ED R C r h2r h2c hr
      · rw [edgeFaceCount_swap]
        exact class_WV R C r (C-1) h2r h2c (by omega) (by omega)
          (Or.inr (Or.inr (Or.inr rfl)))
    · rcases he with rfl | rfl | rfl
      · exact class_WV R C (r+1) (C-1) h2r h2c (by omega) (by omega)
          (Or.inr (Or.inr (Or.inr rfl)))
      · rw [edgeFaceCount_swap]
        exact class_BV R C r (C-1) h2r h2c hr (by omega)
      · rw [edgeFaceCount_swap]
        exact class_ED R C r h2r h2c hr

theorem grid_index_lt (rows cols r c : ℕ) (hr : r < rows) (hc : c < cols) :
    grid_index r c cols < rows * cols := by
  unfold grid_index
  calc r * cols + c < r * cols + cols := by omega
    _ = (r + 1) * cols := by ring
    _ ≤ rows * cols := Nat.mul_le_mul_right cols hr

theorem grid_index_inj (cols r c r' c' : ℕ) (hc : c < cols) (hc' : c' < cols)
    (h : grid_index r c cols = grid_index r' c' cols) : r = r' ∧ c = c' := by
  have hcols : 0 < cols := by omega
  unfold grid_index at h
  have e1 : r = r' := by
    have h2 : (cols * r + c) / cols = (cols * r' + c') / cols := by
      rw [Nat.mul_comm cols r, Nat.mul_comm cols r', h]
    rwa [Nat.mul_add_div hcols, Nat.mul_add_div hcols, Nat.div_eq_of_lt hc,
      Nat.div_eq_of_lt hc', Nat.add_zero, Nat.add_zero] at h2
  refine ⟨e1, ?_⟩
  subst e1
  omega

theorem encAV_inj (rows cols : ℕ) (u v : AV) (hu : AVIn rows cols u)
    (hv : AVIn rows cols v) (h : encAV rows cols u = encAV rows cols v) : u = v := by
  cases u with
  | tv r c =>
      cases v with
      | tv r' c' =>
          simp only [encAV] at h
          obtain ⟨e1, e2⟩ := grid_index_inj cols r c r' c' hu.2 hv.2 h
          rw [e1, e2]
      | bv r' c' =>
          exfalso
          simp only [encAV] at h
          have := grid_index_lt rows cols r c hu.1 hu.2
          omega
  | bv r c =>
      cases v with
      | tv r' c' =>
          exfalso
          simp only [encAV] at h
          have := grid_index_lt rows cols r' c' hv.1 hv.2
          omega
      | bv r' c' =>
          simp only [encAV] at h
          obtain ⟨e1, e2⟩ := grid_index_inj cols r c r' c' hu.2 hv.2 (by omega)
          rw [e1, e2]

theorem encAV_eq_iff (rows cols : ℕ) (u v : AV) (hu : AVIn rows cols u)
    (hv : AVIn rows cols v) :
    (encAV rows cols u = encAV rows cols v) ↔ u = v :=
  ⟨encAV_inj rows cols u v hu hv, fun h => by rw [h]⟩

theorem terrainFacesA_wf (R C : ℕ) (f : AV × AV × AV) (hf : f ∈ terrainFacesA R C)
    (h2r : 2 ≤ R) (h2c : 2 ≤ C) :
    AVIn R C f.1 ∧ AVIn R C f.2.1 ∧ AVIn R C f.2.2 := by
  simp only [terrainFacesA, List.mem_append, List.mem_flatMap, List.mem_range] at hf
  rcases hf with (⟨r, hr, c, hc, hfq⟩ | ⟨c, hc, hfn⟩) | ⟨r, hr, hfw⟩
  · simp only [quadFacesA, List.mem_cons, List.not_mem_nil, or_false] at hfq
    rcases hfq with rfl | rfl | rfl | rfl <;>
      exact ⟨by simp only [AVIn]; omega, by simp only [AVIn]; omega,
        by simp only [AVIn]; omega⟩
  · simp only [wallFacesA, List.mem_append, List.mem_cons, List.not_mem_nil,
      or_false] at hfn
    rcases hfn with (rfl | rfl) | (rfl | rfl) <;>
      exact ⟨by simp only [AVIn]; omega, by simp only [AVIn]; omega,
        by simp only [AVIn]; omega⟩
  · simp only [wallFacesA, List.mem_append, List.mem_cons, List.not_mem_nil,
      or_false] at hfw
    rcases hfw with (rfl | rfl) | (rfl | rfl) <;>
      exact ⟨by simp only [AVIn]; omega, by simp only [AVIn]; omega,
        by simp only [AVIn]; omega⟩

theorem sides_wf (rows cols : ℕ) (f : AV × AV × AV) (e : AV × AV)
    (he : e ∈ sidesOf f)
    (hf : AVIn rows cols f.1 ∧ AVIn rows cols f.2.1 ∧ AVIn rows cols f.2.2) :
    AVIn rows cols e.1 ∧ AVIn rows cols e.2 := by
  obtain ⟨f1, f2, f3⟩ := f
  simp only [sidesOf, List.mem_cons, List.not_mem_nil, or_false] at he
  obtain ⟨h1, h2, h3⟩ := hf
  rcases he with rfl | rfl | rfl
  · exact ⟨h1, h2⟩
  · exact ⟨h2, h3⟩
  · exact ⟨h3, h1⟩

theorem hasEdge_enc (rows cols : ℕ) (f : AV × AV × AV) (e : AV × AV)
    (hf : AVIn rows cols f.1 ∧ AVIn rows cols f.2.1 ∧ AVIn rows cols f.2.2)
    (he1 : AVIn rows cols e.1) (he2 : AVIn rows cols e.2) :
    hasEdge (encF rows cols f) (encE rows cols e) = hasEdge f e := by
  obtain ⟨f1, f2, f3⟩ := f
  obtain ⟨e1, e2⟩ := e
  obtain ⟨h1, h2, h3⟩ := hf
  simp only [hasEdge, sidesOf, encF, encE, List.mem_cons, List.not_mem_nil, or_false,
    Prod.mk.injEq, decide_eq_decide]
  rw [encAV_eq_iff rows cols e1 f1 he1 h1, encAV_eq_iff rows cols e1 f2 he1 h2,
    encAV_eq_iff rows cols e1 f3 he1 h3, encAV_eq_iff rows cols e2 f1 he2 h1,
    encAV_eq_iff rows cols e2 f2 he2 h2, encAV_eq_iff rows cols e2 f3 he2 h3]

theorem edgeFaceCount_enc (rows cols : ℕ) (l : List (AV × AV × AV)) (e : AV × AV)
    (hl : ∀ f ∈ l, AVIn rows cols f.1 ∧ AVIn rows cols f.2.1 ∧ AVIn rows cols f.2.2)
    (he1 : AVIn rows cols e.1) (he2 : AVIn rows cols e.2) :
    edgeFaceCount (l.map (encF rows cols)) (encE rows cols e) = edgeFaceCount l e := by
  unfold edgeFaceCount
  rw [List.filter_map, List.length_map]
  have hfc : l.filter ((fun g => hasEdge g (encE rows cols e)) ∘ encF rows cols) =
      l.filter (fun f => hasEdge f e) := by
    apply List.filter_congr
    intro f hf
    exact hasEdge_enc rows cols f e (hl f hf) he1 he2
  rw [hfc]

theorem terrainFaces_eq_map (rows cols : ℕ) :
    terrainFaces rows cols = (terrainFacesA rows cols).map (encF rows cols) := by
  unfold terrainFaces terrainFacesA
  simp only [List.map_append, List.map_flatMap]
  refine congrArg₂ (· ++ ·) (congrArg₂ (· ++ ·) ?_ ?_) ?_
  · apply congrArg
    funext r
    apply congrArg
    funext c
    simp only [quadFaces, quadFacesA, encF, encAV, List.map_cons, List.map_nil]
  · apply congrArg
    funext c
    simp only [wallFaces, wallFacesA, encF, encAV, List.map_append, List.map_cons,
      List.map_nil]
  · apply congrArg
    funext r
    simp only [wallFaces, wallFacesA, encF, encAV, List.map_append, List.map_cons,
      List.map_nil]

theorem countNat_two (R C : ℕ) (h2r : 2 ≤ R) (h2c : 2 ≤ C)
    (g : ℕ × ℕ × ℕ) (hg : g ∈ terrainFaces R C) (e : ℕ × ℕ) (he : e ∈ sidesOf g) :
    edgeFaceCount (terrainFaces R C) e = 2 := by
  rw [terrainFaces_eq_map] at hg ⊢
  rw [List.mem_map] at hg
  obtain ⟨f, hfA, rfl⟩ := hg
  obtain ⟨f1, f2, f3⟩ := f
  have hsides : sidesOf (encF R C (f1, f2, f3)) =
      (sidesOf (f1, f2, f3)).map (fun p => encE R C p) := by
    simp only [sidesOf, encF, encE, List.map_cons, List.map_nil]
  rw [hsides, List.mem_map] at he
  obtain ⟨eA, heA, rfl⟩ := he
  have hwf := terrainFacesA_wf R C (f1, f2, f3) hfA h2r h2c
  have hewf := sides_wf R C (f1, f2, f3) eA heA hwf
  rw [edgeFaceCount_enc R C _ eA
    (fun f hf => terrainFacesA_wf R C f hf h2r h2c) hewf.1 hewf.2]
  exact countA_two R C h2r h2c (f1, f2, f3) hfA eA heA

/-! ## Claims -/

/-- **C10.** For strictly increasing coordinate arrays of length ≥ 2 and
any height grid and query point — including points outside the grid
extent — `sample_height_on_grid` returns a value between the minimum and
maximum of the four corner heights of the enclosing clamped cell
(`sampleIx` is the clamped cell index the source computes), and the
result for any query equals the result for the query clamped to the grid
extent. -/
theorem C10_bilinear_sampling (xs ys : List ℚ) (z : List (List ℚ)) (px py : ℚ)
    (hxs : List.Pairwise (· < ·) xs) (hys : List.Pairwise (· < ·) ys)
    (hx2 : 2 ≤ xs.length) (hy2 : 2 ≤ ys.length) :
    (min (min (cellQ z (sampleIx ys py) (sampleIx xs px))
              (cellQ z (sampleIx ys py) (sampleIx xs px + 1)))
         (min (cellQ z (sampleIx ys py + 1) (sampleIx xs px))
              (cellQ z (sampleIx ys py + 1) (sampleIx xs px + 1))) ≤
        sample_height_on_grid xs ys z px py ∧
      sample_height_on_grid xs ys z px py ≤
        max (max (cellQ z (sampleIx ys py) (sampleIx xs px))
                 (cellQ z (sampleIx ys py) (sampleIx xs px + 1)))
            (max (cellQ z (sampleIx ys py + 1) (sampleIx xs px))
                 (cellQ z (sampleIx ys py + 1) (sampleIx xs px + 1)))) ∧
    sample_height_on_grid xs ys z px py =
      sample_height_on_grid xs ys z (clipQ px (xs.headD 0) (xs.getLastD 0))
        (clipQ py (ys.headD 0) (ys.getLastD 0)) := by
  obtain ⟨htx0, htx1⟩ := frac_bounds xs hxs hx2 px
  obtain ⟨hty0, hty1⟩ := frac_bounds ys hys hy2 py
  constructor
  · rw [sample_formula xs ys z px py]
    obtain ⟨ha1, ha2⟩ := lerp_bounds (cellQ z (sampleIx ys py) (sampleIx xs px))
      (cellQ z (sampleIx ys py) (sampleIx xs px + 1)) (fracOf xs px) htx0 htx1
    obtain ⟨hb1, hb2⟩ := lerp_bounds (cellQ z (sampleIx ys py + 1) (sampleIx xs px))
      (cellQ z (sampleIx ys py + 1) (sampleIx xs px + 1)) (fracOf xs px) htx0 htx1
    obtain ⟨hc1, hc2⟩ := lerp_bounds
      (cellQ z (sampleIx ys py) (sampleIx xs px) * (1 - fracOf xs px) +
        cellQ z (sampleIx ys py) (sampleIx xs px + 1) * fracOf xs px)
      (cellQ z (sampleIx ys py + 1) (sampleIx xs px) * (1 - fracOf xs px) +
        cellQ z (sampleIx ys py + 1) (sampleIx xs px + 1) * fracOf xs px)
      (fracOf ys py) hty0 hty1
    constructor
    · exact le_trans (le_trans (min_le_min ha1 hb1) (le_refl _)) hc1
    · exact le_trans hc2 (max_le_max ha2 hb2)
  · have hx01 : xs.getD 0 0 ≤ xs.getD (xs.length - 1) 0 :=
      le_of_lt (pairwise_getD_lt xs hxs 0 (xs.length - 1) (by omega) (by omega))
    have hy01 : ys.getD 0 0 ≤ ys.getD (ys.length - 1) 0 :=
      le_of_lt (pairwise_getD_lt ys hys 0 (ys.length - 1) (by omega) (by omega))
    have hxle : xs.headD 0 ≤ xs.getLastD 0 := by
      rw [headD_eq_getD, getLastD_eq_getD]; exact hx01
    have hyle : ys.headD 0 ≤ ys.getLastD 0 := by
      rw [headD_eq_getD, getLastD_eq_getD]; exact hy01
    have hcx := clip_mem px (xs.headD 0) (xs.getLastD 0) hxle
    have hcy := clip_mem py (ys.headD 0) (ys.getLastD 0) hyle
    have hidx : clipQ (clipQ px (xs.headD 0) (xs.getLastD 0)) (xs.headD 0) (xs.getLastD 0) =
        clipQ px (xs.headD 0) (xs.getLastD 0) := clip_of_mem _ _ _ hcx.1 hcx.2
    have hidy : clipQ (clipQ py (ys.headD 0) (ys.getLastD 0)) (ys.headD 0) (ys.getLastD 0) =
        clipQ py (ys.headD 0) (ys.getLastD 0) := clip_of_mem _ _ _ hcy.1 hcy.2
    simp only [sample_height_on_grid, hidx, hidy]



/-- Witness for C10: the out-of-extent query `(5, -1)` over the 2×2 grid
`[[1, 2], [3, 4]]` samples exactly as its clamped counterpart. -/
theorem C10_witness :
    List.Pairwise (fun a b : ℚ => a < b) [(0:ℚ), 1] ∧
    sample_height_on_grid [(0:ℚ), 1] [(0:ℚ), 1] [[1, 2], [3, 4]] 5 (-1) =
      sample_height_on_grid [(0:ℚ), 1] [(0:ℚ), 1] [[1, 2], [3, 4]]
        (clipQ 5 (([(0:ℚ), 1]).headD 0) (([(0:ℚ), 1]).getLastD 0))
        (clipQ (-1) (([(0:ℚ), 1]).headD 0) (([(0:ℚ), 1]).getLastD 0)) := by
  have hp : List.Pairwise (fun a b : ℚ => a < b) [(0:ℚ), 1] := by
    norm_num [List.pairwise_cons]
  exact ⟨hp, (C10_bilinear_sampling [(0:ℚ), 1] [(0:ℚ), 1] [[1, 2], [3, 4]] 5 (-1)
    hp hp (by norm_num) (by norm_num)).2⟩

/-- **C1, amended.**  For every cell of every pipeline run: the final
height is `z_mm = (elevation - zMin) * scale * verticalScale`, applied to
the filled, orientation-corrected elevation, with the single aspect-locked
scale `scale = min(modelWidth / rasterSpanX, modelHeight / rasterSpanY)`.
The claim's parenthetical equivalence with
`normalized * zRange * scale * verticalScale` holds whenever
`zRange > 1e-12` or `zRange = 0`, but not in the sliver
`0 < zRange ≤ 1e-12`, where the backend zeroes the normalized field while
the pipeline still scales the raw elevation difference. -/
theorem C1_vertical_conversion (dem : List (List ℚ)) (mask : List (List Bool))
    (w : WinT) (cfg : GenerateConfig)
    (hlen : mask.length = dem.length)
    (hrow : ∀ i, i < dem.length → (mask.getD i []).length = (dem.getD i []).length)
    (huniform : ∀ i, i < dem.length → (dem.getD i []).length = (dem.headD []).length)
    (hvalid : validValues dem mask ≠ [])
    (i j : ℕ) (hi : i < dem.length) (hj : j < (dem.headD []).length) :
    cellQ (pipelineZ dem mask w cfg) i j =
      (cellQ (orientedFilled dem mask w) i j - zMinSrc dem mask) *
        horizScale cfg w dem.length ((dem.headD []).length) * cfg.vertical_scale ∧
    horizScale cfg w dem.length ((dem.headD []).length) =
      min (cfg.model_width_mm / spanFloor (xCoords w.c w.a ((dem.headD []).length)))
        (cfg.model_height_mm / spanFloor (yCoords w.f w.e dem.length)) ∧
    ((epsFlat < zRangeSrc dem mask ∨ zRangeSrc dem mask = 0) →
      cellQ (pipelineZ dem mask w cfg) i j =
        cellQ (orientedNormalized dem mask w) i j * zRangeSrc dem mask *
          horizScale cfg w dem.length ((dem.headD []).length) * cfg.vertical_scale) := by
  have horow : (if flipCond w dem.length then dem.length - 1 - i else i) < dem.length := by
    split <;> omega
  have hj' : j < ((orientedFilled dem mask w).getD i []).length := by
    rw [orientedFilled_row_length dem mask w hlen hrow i hi, huniform _ horow]
    exact hj
  have hjo : j < (dem.getD (if flipCond w dem.length then dem.length - 1 - i else i) []).length := by
    rw [huniform _ horow]; exact hj
  refine ⟨pipelineZ_cell dem mask w cfg hlen i j hi hj', rfl, ?_⟩
  intro hc
  rw [pipelineZ_cell dem mask w cfg hlen i j hi hj']
  rw [orientedFilled_cell dem mask w hlen i j hi]
  rw [orientedNormalized_cell dem mask w hlen i j hi]
  rw [← normalized_times_range dem mask hlen hrow hvalid _ j horow hjo hc]



/-- Witness for C1 (amended): a 1×2 window with elevations 0 and 5. -/
theorem C1_witness :
    validValues [[(0:ℚ), 5]] [[true, true]] ≠ [] ∧
    cellQ (pipelineZ [[(0:ℚ), 5]] [[true, true]] ⟨0, 1, 0, 1⟩ {}) 0 1 =
      (cellQ (orientedFilled [[(0:ℚ), 5]] [[true, true]] ⟨0, 1, 0, 1⟩) 0 1 -
        zMinSrc [[(0:ℚ), 5]] [[true, true]]) *
        horizScale {} ⟨0, 1, 0, 1⟩ 1 2 * ({} : GenerateConfig).vertical_scale := by
  have hvalid : validValues [[(0:ℚ), 5]] [[true, true]] ≠ [] := by
    simp [validValues, rowValid]
  refine ⟨hvalid, ?_⟩
  exact (C1_vertical_conversion [[(0:ℚ), 5]] [[true, true]] ⟨0, 1, 0, 1⟩ {} rfl
    (by intro i hi
        match i, hi with
        | 0, _ => rfl)
    (by intro i hi
        match i, hi with
        | 0, _ => rfl)
    hvalid 0 1 (by norm_num) (by norm_num)).1

/-- **C1, counterexample.**  On the all-valid 1×2 grid with elevations
`0` and `1e-13` the elevation range is positive but below the `1e-12`
flat-terrain threshold: the pipeline's cell height is
`1e-13 * 150 * 1 = 1.5e-11` mm while `normalized * zRange * scale *
verticalScale` is `0`, so the claim's stated equivalence of the two
formulas fails on this run. -/
theorem C1_counterexample :
    cellQ (pipelineZ [[(0:ℚ), 1/10^13]] [[true, true]] ⟨0, 1, 0, 1⟩ {}) 0 1 ≠
      cellQ (orientedNormalized [[(0:ℚ), 1/10^13]] [[true, true]] ⟨0, 1, 0, 1⟩) 0 1 *
        zRangeSrc [[(0:ℚ), 1/10^13]] [[true, true]] *
        horizScale {} ⟨0, 1, 0, 1⟩ 1 2 * ({} : GenerateConfig).vertical_scale := by
  have hnoflip : ¬ flipCond ⟨0, 1, 0, 1⟩ ([[(0:ℚ), 1/10^13]] : List (List ℚ)).length := by
    norm_num [flipCond, yCoords, List.range_succ, List.headD, List.getLastD]
  have hzr : zRangeSrc [[(0:ℚ), 1/10^13]] [[true, true]] = 1/10^13 := by
    norm_num [zRangeSrc, zMaxSrc, zMinSrc, validValues, rowValid, listMin, listMax]
  have hnorm : cellQ (orientedNormalized [[(0:ℚ), 1/10^13]] [[true, true]] ⟨0, 1, 0, 1⟩) 0 1 = 0 := by
    unfold orientedNormalized
    rw [if_neg hnoflip]
    norm_num [normalized01, zRangeSrc, zMaxSrc, zMinSrc, validValues, rowValid,
      listMin, listMax, epsFlat, demFilled, cellQ, List.getD]
  have hz : cellQ (pipelineZ [[(0:ℚ), 1/10^13]] [[true, true]] ⟨0, 1, 0, 1⟩ {}) 0 1 =
      3/200000000000 := by
    unfold pipelineZ orientedFilled
    rw [if_neg hnoflip]
    norm_num [demFilled, zMinSrc, validValues, rowValid, listMin, cellQ, List.getD,
      horizScale, spanFloor, xCoords, yCoords, List.range_succ, listMax,
      GenerateConfig.vertical_scale, GenerateConfig.model_width_mm,
      GenerateConfig.model_height_mm]
  rw [hz, hnorm, hzr]
  norm_num

/-- **C3.** The claim says a height grid with fewer than 2 rows or columns
makes `build_terrain_mesh` raise `InsufficientResolutionError`.  No such
error class exists anywhere in the repository and the builder validates
nothing: on the 1×1 grid it returns a mesh with two vertices and zero
faces, and on a 1×2 grid it even returns four wall faces.  This theorem
evaluates the embedded code at those failing inputs. -/
theorem C3_degenerate_grid_returns_mesh :
    build_terrain_mesh [0] [0] [[5]] 1 = ⟨[(0, 0, 5), (0, 0, -1)], []⟩ ∧
    (build_terrain_mesh [0, 1] [0] [[5, 6]] 1).faces =
      [(0, 1, 2), (1, 3, 2), (1, 0, 3), (0, 2, 3)] := by
  constructor <;> decide

/-- **C4.** For every elevation grid with at least one valid cell: invalid
cells of the filled grid hold `zMin` (valid cells keep their value), the
normalized field is `(filled - zMin) / zRange` clamped to `[0, 1]` with
`zRange = max(zMax - zMin, 0)`, and whenever `zRange ≤ 1e-12` the
normalized field is identically zero — no division occurs on flat
terrain.  Stated per cell, for every in-bounds position. -/
theorem C4_fill_and_normalize (dem : List (List ℚ)) (mask : List (List Bool))
    (hlen : mask.length = dem.length)
    (hrow : ∀ i, i < dem.length → (mask.getD i []).length = (dem.getD i []).length)
    (_hvalid : validValues dem mask ≠ [])
    (i j : ℕ) (hi : i < dem.length) (hj : j < (dem.getD i []).length) :
    (cellB mask i j = false → cellQ (demFilled dem mask) i j = zMinSrc dem mask) ∧
    (cellB mask i j = true → cellQ (demFilled dem mask) i j = cellQ dem i j) ∧
    zRangeSrc dem mask = max (zMaxSrc dem mask - zMinSrc dem mask) 0 ∧
    (epsFlat < zRangeSrc dem mask →
      cellQ (normalized01 dem mask) i j =
        clipQ ((cellQ (demFilled dem mask) i j - zMinSrc dem mask) / zRangeSrc dem mask) 0 1) ∧
    (zRangeSrc dem mask ≤ epsFlat → cellQ (normalized01 dem mask) i j = 0) ∧
    0 ≤ cellQ (normalized01 dem mask) i j ∧ cellQ (normalized01 dem mask) i j ≤ 1 := by
  have hfd := demFilled_getD dem mask hlen hrow i j hi hj
  refine ⟨?_, ?_, rfl, normalized01_cell_scaled dem mask hlen hrow i j hi hj,
    normalized01_cell_flat dem mask hlen hrow i j hi hj, ?_, ?_⟩
  · intro hb; rw [hfd, hb]; simp
  · intro hb; rw [hfd, hb]; simp
  · rcases le_or_lt (zRangeSrc dem mask) epsFlat with hle | hgt
    · rw [normalized01_cell_flat dem mask hlen hrow i j hi hj hle]
    · rw [normalized01_cell_scaled dem mask hlen hrow i j hi hj hgt]
      exact le_min (le_max_right _ _) (by norm_num)
  · rcases le_or_lt (zRangeSrc dem mask) epsFlat with hle | hgt
    · rw [normalized01_cell_flat dem mask hlen hrow i j hi hj hle]; norm_num
    · rw [normalized01_cell_scaled dem mask hlen hrow i j hi hj hgt]
      exact min_le_right _ _

/-- Witness for C4: the 2×2 grid `[[1, 5], [3, 9]]` with one invalid cell. -/
theorem C4_witness :
    ([[true, false], [true, true]] : List (List Bool)).length =
        ([[(1:ℚ), 5], [3, 9]] : List (List ℚ)).length ∧
    validValues [[(1:ℚ), 5], [3, 9]] [[true, false], [true, true]] ≠ [] ∧
    ((cellB [[true, false], [true, true]] 0 1 = false →
        cellQ (demFilled [[(1:ℚ), 5], [3, 9]] [[true, false], [true, true]]) 0 1 =
          zMinSrc [[(1:ℚ), 5], [3, 9]] [[true, false], [true, true]]) ∧
      (cellB [[true, false], [true, true]] 0 1 = true →
        cellQ (demFilled [[(1:ℚ), 5], [3, 9]] [[true, false], [true, true]]) 0 1 =
          cellQ [[(1:ℚ), 5], [3, 9]] 0 1) ∧
      zRangeSrc [[(1:ℚ), 5], [3, 9]] [[true, false], [true, true]] =
        max (zMaxSrc [[(1:ℚ), 5], [3, 9]] [[true, false], [true, true]] -
          zMinSrc [[(1:ℚ), 5], [3, 9]] [[true, false], [true, true]]) 0 ∧
      (epsFlat < zRangeSrc [[(1:ℚ), 5], [3, 9]] [[true, false], [true, true]] →
        cellQ (normalized01 [[(1:ℚ), 5], [3, 9]] [[true, false], [true, true]]) 0 1 =
          clipQ ((cellQ (demFilled [[(1:ℚ), 5], [3, 9]] [[true, false], [true, true]]) 0 1 -
            zMinSrc [[(1:ℚ), 5], [3, 9]] [[true, false], [true, true]]) /
              zRangeSrc [[(1:ℚ), 5], [3, 9]] [[true, false], [true, true]]) 0 1) ∧
      (zRangeSrc [[(1:ℚ), 5], [3, 9]] [[true, false], [true, true]] ≤ epsFlat →
        cellQ (normalized01 [[(1:ℚ), 5], [3, 9]] [[true, false], [true, true]]) 0 1 = 0) ∧
      0 ≤ cellQ (normalized01 [[(1:ℚ), 5], [3, 9]] [[true, false], [true, true]]) 0 1 ∧
      cellQ (normalized01 [[(1:ℚ), 5], [3, 9]] [[true, false], [true, true]]) 0 1 ≤ 1) :=
  ⟨rfl, by simp [validValues, rowValid],
   C4_fill_and_normalize [[(1:ℚ), 5], [3, 9]] [[true, false], [true, true]] rfl
     (by intro i hi
         match i, hi with
         | 0, _ => rfl
         | 1, _ => rfl)
     (by simp [validValues, rowValid]) 0 1 (by norm_num) (by norm_num)⟩

/-- **C8, amended.**  Renormalization is the identity on an
already-normalized field: for every grid whose values lie in `[0, 1]`,
whose valid-cell minimum is 0 and maximum is 1, and whose invalid cells
hold 0 (as they do on the output of a first normalization pass, which
fills them with `zMin`), `normalized01` returns the very same grid. -/
theorem C8_renormalization_fixed (dem : List (List ℚ)) (mask : List (List Bool))
    (hlen : mask.length = dem.length)
    (hrow : ∀ i, i < dem.length → (mask.getD i []).length = (dem.getD i []).length)
    (hvals : ∀ i j, i < dem.length → j < (dem.getD i []).length →
      0 ≤ cellQ dem i j ∧ cellQ dem i j ≤ 1)
    (hmin : zMinSrc dem mask = 0) (hmax : zMaxSrc dem mask = 1)
    (hinv : ∀ i j, i < dem.length → j < (dem.getD i []).length →
      cellB mask i j = false → cellQ dem i j = 0) :
    normalized01 dem mask = dem := by
  have hzr : zRangeSrc dem mask = 1 := by
    unfold zRangeSrc; rw [hmin, hmax]; norm_num
  have hgt : epsFlat < zRangeSrc dem mask := by
    rw [hzr]; norm_num [epsFlat]
  have hnl := normalized01_length dem mask hlen
  apply grid_ext _ _ hnl
  · intro i hi
    exact normalized01_row_length dem mask hlen hrow i (by rw [hnl] at hi; exact hi)
  · intro i j hi hj
    rw [hnl] at hi
    rw [normalized01_row_length dem mask hlen hrow i hi] at hj
    rw [normalized01_cell_scaled dem mask hlen hrow i j hi hj hgt, hmin, hzr]
    rw [sub_zero, div_one]
    have hfd := demFilled_getD dem mask hlen hrow i j hi hj
    cases hb : cellB mask i j with
    | false =>
        rw [hb] at hfd
        simp at hfd
        rw [hfd, hmin, hinv i j hi hj hb]
        unfold clipQ
        norm_num
    | true =>
        rw [hb] at hfd
        simp at hfd
        rw [hfd]
        obtain ⟨h0, h1⟩ := hvals i j hi hj
        unfold clipQ
        rw [max_eq_left h0, min_eq_left h1]

/-- **C8, counterexample.**  The claim as stated quantifies over every
grid with values in `[0, 1]`, valid minimum 0 and valid maximum 1 — but
says nothing about invalid cells.  The grid `[[0, 1, 1/2]]` whose third
cell is invalid satisfies every stated hypothesis, yet renormalization
replaces the invalid `1/2` by `zMin = 0` and returns a different field. -/
theorem C8_counterexample :
    (∀ row ∈ [[(0:ℚ), 1, 1/2]], ∀ x ∈ row, 0 ≤ x ∧ x ≤ 1) ∧
    zMinSrc [[(0:ℚ), 1, 1/2]] [[true, true, false]] = 0 ∧
    zMaxSrc [[(0:ℚ), 1, 1/2]] [[true, true, false]] = 1 ∧
    normalized01 [[(0:ℚ), 1, 1/2]] [[true, true, false]] ≠ [[(0:ℚ), 1, 1/2]] := by
  refine ⟨by norm_num, ?_, ?_, ?_⟩
  · norm_num [zMinSrc, validValues, rowValid, listMin]
  · norm_num [zMaxSrc, validValues, rowValid, listMax]
  · norm_num [normalized01, zRangeSrc, zMinSrc, zMaxSrc, validValues, rowValid,
      listMin, listMax, epsFlat, demFilled, clipQ]



/-- Witness for C8 (amended): the fully valid grid `[[0, 1]]` is a fixed
point of `normalized01`. -/
theorem C8_witness :
    zMinSrc [[(0:ℚ), 1]] [[true, true]] = 0 ∧
    zMaxSrc [[(0:ℚ), 1]] [[true, true]] = 1 ∧
    normalized01 [[(0:ℚ), 1]] [[true, true]] = [[(0:ℚ), 1]] := by
  have hmin : zMinSrc [[(0:ℚ), 1]] [[true, true]] = 0 := by
    norm_num [zMinSrc, validValues, rowValid, listMin]
  have hmax : zMaxSrc [[(0:ℚ), 1]] [[true, true]] = 1 := by
    norm_num [zMaxSrc, validValues, rowValid, listMax]
  refine ⟨hmin, hmax,
    C8_renormalization_fixed [[(0:ℚ), 1]] [[true, true]] rfl ?_ ?_ hmin hmax ?_⟩
  · intro i hi
    match i, hi with
    | 0, _ => rfl
  · intro i j hi hj
    simp only [List.length_cons, List.length_nil] at hi
    have : i = 0 := by omega
    subst this
    simp only [List.getD, List.length_cons, List.length_nil] at hj
    have : j = 0 ∨ j = 1 := by
      revert hj
      norm_num
      omega
    rcases this with rfl | rfl <;> norm_num [cellQ, List.getD]
  · intro i j hi hj hb
    exfalso
    simp only [List.length_cons, List.length_nil] at hi
    have hi0 : i = 0 := by omega
    subst hi0
    match j with
    | 0 => simp [cellB, List.getD] at hb
    | 1 => simp [cellB, List.getD] at hb
    | n + 2 => simp [cellB, List.getD] at hb

/-- **C5.** Exactly when the extracted window's native Y axis decreases
downward — `y_coords[0] > y_coords[-1]` — the pipeline's filled height
grid and the backend's normalized field are vertically mirrored
(`np.flipud`) before mesh building, so output row `i` holds input row
`rows - 1 - i`; otherwise both grids are left untouched.  In both cases
the output row order runs from minimum to maximum projected Y
(`rowProjY` is monotone in the row index). -/
theorem C5_orientation (dem : List (List ℚ)) (mask : List (List Bool)) (w : WinT)
    (hlen : mask.length = dem.length) (hrows : 1 ≤ dem.length) :
    (flipCond w dem.length →
      orientedFilled dem mask w = flipud (demFilled dem mask) ∧
      orientedNormalized dem mask w = flipud (normalized01 dem mask) ∧
      ∀ i j, i < dem.length →
        cellQ (orientedFilled dem mask w) i j =
          cellQ (demFilled dem mask) (dem.length - 1 - i) j) ∧
    (¬ flipCond w dem.length →
      orientedFilled dem mask w = demFilled dem mask ∧
      orientedNormalized dem mask w = normalized01 dem mask) ∧
    (∀ i j, i ≤ j → j < dem.length →
      rowProjY w dem.length i ≤ rowProjY w dem.length j) := by
  refine ⟨?_, ?_, ?_⟩
  · intro hf
    refine ⟨by unfold orientedFilled; rw [if_pos hf],
            by unfold orientedNormalized; rw [if_pos hf], ?_⟩
    intro i j hi
    unfold orientedFilled
    rw [if_pos hf]
    unfold flipud cellQ
    have hflen : (demFilled dem mask).length = dem.length := demFilled_length dem mask hlen
    rw [getD_reverse (demFilled dem mask) i (by rw [hflen]; exact hi) []]
    rw [hflen]
  · intro hf
    exact ⟨by unfold orientedFilled; rw [if_neg hf],
           by unfold orientedNormalized; rw [if_neg hf]⟩
  · intro i j hij hj
    by_cases hf : flipCond w dem.length
    · have hprod := (flipCond_iff w dem.length hrows).mp hf
      have he : w.e < 0 := by
        rcases lt_trichotomy w.e 0 with h | h | h
        · exact h
        · rw [h] at hprod; simp at hprod
        · nlinarith [sub_nonneg.mpr (show (1:ℚ) ≤ (dem.length : ℚ) by exact_mod_cast hrows)]
      unfold rowProjY
      rw [if_pos hf, if_pos hf]
      rw [yCoords_getD _ _ _ _ (by omega), yCoords_getD _ _ _ _ (by omega)]
      have hci : ((dem.length - 1 - i : ℕ) : ℚ) = (dem.length : ℚ) - 1 - i := by
        have : i ≤ dem.length - 1 := by omega
        push_cast [Nat.cast_sub this, Nat.cast_sub hrows]
        ring
      have hcj : ((dem.length - 1 - j : ℕ) : ℚ) = (dem.length : ℚ) - 1 - j := by
        have : j ≤ dem.length - 1 := by omega
        push_cast [Nat.cast_sub this, Nat.cast_sub hrows]
        ring
      rw [hci, hcj]
      have hij' : (i : ℚ) ≤ j := by exact_mod_cast hij
      nlinarith
    · have hprod := (flipCond_iff w dem.length hrows).not.mp hf
      push_neg at hprod
      unfold rowProjY
      rw [if_neg hf, if_neg hf]
      rw [yCoords_getD _ _ _ _ (by omega), yCoords_getD _ _ _ _ (by omega)]
      have hij' : (i : ℚ) ≤ j := by exact_mod_cast hij
      rcases Nat.lt_or_ge 1 dem.length with h2 | h2
      · have he : 0 ≤ w.e := by
          by_contra hneg
          push_neg at hneg
          have : ((dem.length : ℚ) - 1) > 0 := by
            have : (1:ℚ) < (dem.length : ℚ) := by exact_mod_cast h2
            linarith
          nlinarith
        nlinarith
      · have : i = 0 ∧ j = 0 := by omega
        obtain ⟨rfl, rfl⟩ := this
        exact le_refl _



/-- Witness for C5: a 2-row window with `win_t.e = -1` (Y decreasing
downward) flips both grids. -/
theorem C5_witness :
    flipCond ⟨0, 1, 0, -1⟩ ([[(1:ℚ)], [2]] : List (List ℚ)).length ∧
    orientedFilled [[(1:ℚ)], [2]] [[true], [true]] ⟨0, 1, 0, -1⟩ =
      flipud (demFilled [[(1:ℚ)], [2]] [[true], [true]]) ∧
    orientedNormalized [[(1:ℚ)], [2]] [[true], [true]] ⟨0, 1, 0, -1⟩ =
      flipud (normalized01 [[(1:ℚ)], [2]] [[true], [true]]) := by
  have hf : flipCond ⟨0, 1, 0, -1⟩ ([[(1:ℚ)], [2]] : List (List ℚ)).length := by
    norm_num [flipCond, yCoords, List.range_succ, List.headD, List.getLastD]
  have h := C5_orientation [[(1:ℚ)], [2]] [[true], [true]] ⟨0, 1, 0, -1⟩ rfl (by norm_num)
  exact ⟨hf, (h.1 hf).1, (h.1 hf).2.1⟩

set_option maxHeartbeats 1000000 in
/-- **C6.** For every 2-point track whose segment, as measured by the
Euclidean norm `nrm`, is at least 1e-6 mm long, and every nonnegative
ridge width `W`: `build_track_mesh` returns exactly 8 vertices and 12
faces — independent of length and width — and the X and Y coordinates of
all 8 vertices lie within the segment's bounding box expanded by `W/2` on
each side. -/
theorem C6_two_point_track (nrm : ℚ → ℚ → ℚ) (p0 p1 : ℚ × ℚ) (xs ys : List ℚ)
    (z : List (List ℚ)) (th W : ℚ)
    (_hnrm0 : 0 ≤ nrm (p1.1 - p0.1) (p1.2 - p0.2))
    (hnrm2 : (nrm (p1.1 - p0.1) (p1.2 - p0.2)) ^ 2 =
      (p1.1 - p0.1) ^ 2 + (p1.2 - p0.2) ^ 2)
    (hmin : 1 / 10 ^ 6 ≤ nrm (p1.1 - p0.1) (p1.2 - p0.2))
    (hW : 0 ≤ W) :
    (build_track_mesh nrm [p0, p1] xs ys z th W).vertices.length = 8 ∧
    (build_track_mesh nrm [p0, p1] xs ys z th W).faces.length = 12 ∧
    ∀ v ∈ (build_track_mesh nrm [p0, p1] xs ys z th W).vertices,
      min p0.1 p1.1 - W / 2 ≤ v.1 ∧ v.1 ≤ max p0.1 p1.1 + W / 2 ∧
      min p0.2 p1.2 - W / 2 ≤ v.2.1 ∧ v.2.1 ≤ max p0.2 p1.2 + W / 2 := by
  have hLpos : (0:ℚ) < nrm (p1.1 - p0.1) (p1.2 - p0.2) :=
    lt_of_lt_of_le (by norm_num) hmin
  have hpv : segPrism nrm xs ys z th W p0 p1 =
      (let L := nrm (p1.1 - p0.1) (p1.2 - p0.2)
       let off1 := -((p1.2 - p0.2) / L) * (W / 2)
       let off2 := ((p1.1 - p0.1) / L) * (W / 2)
       let z0 := sample_height_on_grid xs ys z p0.1 p0.2 + 1/20
       let z1 := sample_height_on_grid xs ys z p1.1 p1.2 + 1/20
       [(p0.1 - off1, p0.2 - off2, z0), (p0.1 + off1, p0.2 + off2, z0),
        (p1.1 - off1, p1.2 - off2, z1), (p1.1 + off1, p1.2 + off2, z1),
        (p0.1 - off1, p0.2 - off2, z0 + th), (p0.1 + off1, p0.2 + off2, z0 + th),
        (p1.1 - off1, p1.2 - off2, z1 + th), (p1.1 + off1, p1.2 + off2, z1 + th)]) := by
    unfold segPrism
    rw [if_neg (not_lt.mpr hmin)]
  have hmesh : build_track_mesh nrm [p0, p1] xs ys z th W =
      ⟨segPrism nrm xs ys z th W p0 p1, trackLocalFaces⟩ := by
    show trackAccum nrm xs ys z th W ⟨[], []⟩ [(p0, p1)] = _
    simp [trackAccum, hpv, trackLocalFaces]
  refine ⟨?_, ?_, ?_⟩
  · rw [hmesh, hpv]
    rfl
  · rw [hmesh]
    rfl
  · set L := nrm (p1.1 - p0.1) (p1.2 - p0.2) with hL
    have hdy1 : p1.2 - p0.2 ≤ L := by nlinarith
    have hdy2 : -L ≤ p1.2 - p0.2 := by nlinarith
    have hdx1 : p1.1 - p0.1 ≤ L := by nlinarith
    have hdx2 : -L ≤ p1.1 - p0.1 := by nlinarith
    have hq1 : (p1.2 - p0.2) / L ≤ 1 := (div_le_one hLpos).mpr hdy1
    have hq1' : -1 ≤ (p1.2 - p0.2) / L := by
      rw [neg_le, ← neg_div]
      exact (div_le_one hLpos).mpr (by linarith)
    have hq2 : (p1.1 - p0.1) / L ≤ 1 := (div_le_one hLpos).mpr hdx1
    have hq2' : -1 ≤ (p1.1 - p0.1) / L := by
      rw [neg_le, ← neg_div]
      exact (div_le_one hLpos).mpr (by linarith)
    have hWh : (0:ℚ) ≤ W / 2 := by linarith
    have hoff1a : -((p1.2 - p0.2) / L) * (W / 2) ≤ W / 2 := by nlinarith
    have hoff1b : -(W / 2) ≤ -((p1.2 - p0.2) / L) * (W / 2) := by nlinarith
    have hoff2a : ((p1.1 - p0.1) / L) * (W / 2) ≤ W / 2 := by nlinarith
    have hoff2b : -(W / 2) ≤ ((p1.1 - p0.1) / L) * (W / 2) := by nlinarith
    intro v hv
    rw [hmesh, hpv] at hv
    simp only [List.mem_cons, List.not_mem_nil, or_false] at hv
    have hm1 : min p0.1 p1.1 ≤ p0.1 := min_le_left _ _
    have hm2 : min p0.1 p1.1 ≤ p1.1 := min_le_right _ _
    have hm3 : p0.1 ≤ max p0.1 p1.1 := le_max_left _ _
    have hm4 : p1.1 ≤ max p0.1 p1.1 := le_max_right _ _
    have hn1 : min p0.2 p1.2 ≤ p0.2 := min_le_left _ _
    have hn2 : min p0.2 p1.2 ≤ p1.2 := min_le_right _ _
    have hn3 : p0.2 ≤ max p0.2 p1.2 := le_max_left _ _
    have hn4 : p1.2 ≤ max p0.2 p1.2 := le_max_right _ _
    rcases hv with rfl | rfl | rfl | rfl | rfl | rfl | rfl | rfl <;>
      refine ⟨?_, ?_, ?_, ?_⟩ <;> dsimp only <;> linarith



/-- Witness for C6: the segment `(0,0) → (3,4)` of length 5 with width 2
produces the 8-vertex, 12-face prism. -/
theorem C6_witness :
    (0:ℚ) ≤ 2 ∧ (1:ℚ) / 10 ^ 6 ≤ 5 ∧ ((5:ℚ)) ^ 2 = (3 - 0) ^ 2 + (4 - 0) ^ 2 ∧
    (build_track_mesh (fun _ _ => (5:ℚ)) [((0:ℚ), (0:ℚ)), (3, 4)] [0, 10] [0, 10]
      [[0, 0], [0, 0]] 1 2).vertices.length = 8 ∧
    (build_track_mesh (fun _ _ => (5:ℚ)) [((0:ℚ), (0:ℚ)), (3, 4)] [0, 10] [0, 10]
      [[0, 0], [0, 0]] 1 2).faces.length = 12 := by
  have h := C6_two_point_track (fun _ _ => (5:ℚ)) (0, 0) (3, 4) [0, 10] [0, 10]
    [[0, 0], [0, 0]] 1 2 (by norm_num) (by norm_num) (by norm_num) (by norm_num)
  exact ⟨by norm_num, by norm_num, by norm_num, h.1, h.2.1⟩

/-- **C7.** For every track polyline with fewer than two points, or in which
every consecutive segment is shorter than 1e-6 mm (as measured by the
Euclidean-norm function `nrm` of the source), `build_track_mesh` returns the
empty mesh — zero vertices and zero faces — and no error path exists. -/
theorem C7_degenerate_track_empty_mesh (nrm : ℚ → ℚ → ℚ)
    (track : List (ℚ × ℚ)) (x_mm y_mm : List ℚ) (z_mm : List (List ℚ))
    (th tw : ℚ)
    (h : track.length < 2 ∨
      ∀ p ∈ track.zip track.tail, nrm (p.2.1 - p.1.1) (p.2.2 - p.1.2) < 1 / 10 ^ 6) :
    build_track_mesh nrm track x_mm y_mm z_mm th tw = ⟨[], []⟩ := by
  rcases h with h | h
  · match track, h with
    | [], _ => rfl
    | [p], _ => rfl
  · exact skip_trackAccum nrm x_mm y_mm z_mm th tw ⟨[], []⟩ _ h

/-- Witness for C7: a 3-point track whose two segments both measure below
the 1e-6 threshold yields the empty mesh. -/
theorem C7_witness :
    ((([((0:ℚ),(0:ℚ)), (0,0), (0,0)] : List (ℚ × ℚ)).length < 2 ∨
      ∀ p ∈ ([((0:ℚ),(0:ℚ)), (0,0), (0,0)] : List (ℚ × ℚ)).zip
          ([((0:ℚ),(0:ℚ)), (0,0), (0,0)] : List (ℚ × ℚ)).tail,
        (fun _ _ => (0:ℚ)) (p.2.1 - p.1.1) (p.2.2 - p.1.2) < 1 / 10 ^ 6)) ∧
    build_track_mesh (fun _ _ => (0:ℚ)) [((0:ℚ),(0:ℚ)), (0,0), (0,0)]
      [0, 10] [0, 10] [[0, 0], [0, 0]] 2 (6/5) = ⟨[], []⟩ :=
  ⟨Or.inr (by norm_num),
   C7_degenerate_track_empty_mesh (fun _ _ => 0) [(0,0), (0,0), (0,0)]
     [0, 10] [0, 10] [[0, 0], [0, 0]] 2 (6/5) (Or.inr (by norm_num))⟩

/-- **C9, counterexample.**  The claim says the ridge half-width applied per
segment is half of a caller-supplied configuration width with no hidden
default.  With a configuration whose every millimetre field is 7 (so no
field holds 1.2), the pipeline's track-mesh call still produces the mesh
built with width 1.2 — the Python default parameter — and not the mesh
built with any configured width. -/
theorem C9_counterexample :
    (pipelineTrackMesh (fun _ _ => 5)
        { model_width_mm := 7, model_height_mm := 7, base_thickness_mm := 7,
          vertical_scale := 7, track_height_mm := 7, bbox_margin_ratio := 7,
          grid_res := 7, frame_wall_mm := 7, frame_height_mm := 7,
          lip_depth_mm := 7, clearance_mm := 7, text_depth_mm := 7,
          recess_mm := 7, lead_in_mm := 7, finger_notch_radius_mm := 7,
          rim_mm := 7, test_size_mm := 7, groove_width_mm := 7,
          groove_depth_mm := 7, groove_chamfer_mm := 7,
          track_clearance_mm := 7, track_relief_mm := 7,
          track_top_radius_mm := 7 }
        [(0, 0), (3, 4)] [0, 10] [0, 10] [[0, 0], [0, 0]] =
      build_track_mesh (fun _ _ => 5) [(0, 0), (3, 4)] [0, 10] [0, 10]
        [[0, 0], [0, 0]] 7 (6/5)) ∧
    pipelineTrackMesh (fun _ _ => 5)
        { model_width_mm := 7, model_height_mm := 7, base_thickness_mm := 7,
          vertical_scale := 7, track_height_mm := 7, bbox_margin_ratio := 7,
          grid_res := 7, frame_wall_mm := 7, frame_height_mm := 7,
          lip_depth_mm := 7, clearance_mm := 7, text_depth_mm := 7,
          recess_mm := 7, lead_in_mm := 7, finger_notch_radius_mm := 7,
          rim_mm := 7, test_size_mm := 7, groove_width_mm := 7,
          groove_depth_mm := 7, groove_chamfer_mm := 7,
          track_clearance_mm := 7, track_relief_mm := 7,
          track_top_radius_mm := 7 }
        [(0, 0), (3, 4)] [0, 10] [0, 10] [[0, 0], [0, 0]] ≠
      build_track_mesh (fun _ _ => 5) [(0, 0), (3, 4)] [0, 10] [0, 10]
        [[0, 0], [0, 0]] 7 7 := by
  refine ⟨rfl, ?_⟩
  norm_num [pipelineTrackMesh, build_track_mesh, trackAccum, segPrism,
    sample_height_on_grid, searchsortedRight, clipQ, cellQ, track_width_default,
    Mesh.mk.injEq]

/-- **C9, amended.**  The width used by the pipeline's track-mesh call is
the builder's own default parameter `track_width_mm = 1.2`
(mesh_builder.py line 93), for every configuration record and every input:
`GenerateConfig` has no track-ridge-width field, and `run_python_pipeline`
passes no width. -/
theorem C9_width_always_default (nrm : ℚ → ℚ → ℚ) (cfg : GenerateConfig)
    (track : List (ℚ × ℚ)) (x_mm y_mm : List ℚ) (z_mm : List (List ℚ)) :
    pipelineTrackMesh nrm cfg track x_mm y_mm z_mm =
      build_track_mesh nrm track x_mm y_mm z_mm cfg.track_height_mm (6/5) ∧
    track_width_default = 6/5 :=
  ⟨rfl, rfl⟩

/-- C2: for every grid with at least 2 rows and 2 columns, strictly increasing
X and Y coordinate arrays, and any base thickness, the mesh produced by
`build_terrain_mesh` is closed: every edge of every face is shared by exactly
two faces of the mesh (zero open boundary edges). -/
theorem C2_closed_manifold (x_mm y_mm : List ℚ) (z_mm : List (List ℚ))
    (base_thickness_mm : ℚ)
    (h2r : 2 ≤ z_mm.length) (h2c : 2 ≤ (z_mm.headD []).length)
    (hx : x_mm.Pairwise (· < ·)) (hy : y_mm.Pairwise (· < ·))
    (f : ℕ × ℕ × ℕ)
    (hf : f ∈ (build_terrain_mesh x_mm y_mm z_mm base_thickness_mm).faces)
    (e : ℕ × ℕ) (he : e ∈ sidesOf f) :
    edgeFaceCount (build_terrain_mesh x_mm y_mm z_mm base_thickness_mm).faces e = 2 := by
  have hfaces : (build_terrain_mesh x_mm y_mm z_mm base_thickness_mm).faces =
      terrainFaces z_mm.length (z_mm.headD []).length := rfl
  rw [hfaces] at hf ⊢
  exact countNat_two z_mm.length (z_mm.headD []).length h2r h2c f hf e he

theorem C2_witness :
    2 ≤ ([[(0 : ℚ), 0], [0, 0]] : List (List ℚ)).length ∧
      2 ≤ (([[(0 : ℚ), 0], [0, 0]] : List (List ℚ)).headD []).length ∧
      ([(0 : ℚ), 1]).Pairwise (· < ·) ∧
      ((0, 2, 1) : ℕ × ℕ × ℕ) ∈
        (build_terrain_mesh [0, 1] [0, 1] [[0, 0], [0, 0]] 1).faces ∧
      ((0, 2) : ℕ × ℕ) ∈ sidesOf ((0, 2, 1) : ℕ × ℕ × ℕ) ∧
      edgeFaceCount (build_terrain_mesh [0, 1] [0, 1] [[0, 0], [0, 0]] 1).faces
        (0, 2) = 2 :=
  ⟨by decide, by decide, by norm_num, by decide, by decide,
    C2_closed_manifold [0, 1] [0, 1] [[0, 0], [0, 0]] 1 (by decide) (by decide)
      (by norm_num) (by norm_num) (0, 2, 1) (by decide) (0, 2) (by decide)⟩

end Maps3d
